import Mathlib

/-!
Shallow embedding of the oaks-mart backend (src/backend/app.py together with
src/backend/models.py): the product catalog, the transaction ledger, the sync
reconciler of the /api/sync endpoint, and the product upsert endpoint. The
reorder heuristic of /api/ai/suggest is not embedded: its average, target and
margin computations run in IEEE-754 double arithmetic (for example Python
evaluates int((61/14)*14) to 60 because (61/14)*14 rounds below 61), which an
exact-arithmetic embedding would misrepresent.

Modelling conventions:
- Database rows become Lean structures; the relational store becomes lists of
  rows plus counters for the ids the database would assign.
- Python float columns carry only values that are parsed, stored, and compared,
  never combined by lossy arithmetic inside the sync core, so monetary amounts
  are modelled as exact rationals.
- A Python conversion that can raise, such as int(x) or float(x) applied to a
  request field, is modelled as a value of type Except String A already present
  in the request: Except.ok v is a successful parse and Except.error e is a
  raised exception whose str(e) is e. Which way a given JSON value parses is
  decided client side when the request is encoded, which keeps the embedding
  executable.
- Timestamps are opaque clock values of type Nat: the code only ever stores
  them, so no arithmetic on them is needed. The value of datetime.utcnow()
  is the explicit parameter now.
-/

deriving instance DecidableEq for Except

namespace OaksMart

/-- A row of the product table. The qty column is modelled as Int: every write
to it in the source goes through Python int(), its column default is 0, and the
guard written as prod.qty or 0 in the source is the identity on an integer
value because 0 or 0 is 0, so the NULL case that guard protects against is
never created by any code path. price and cost stay optional because a product
created without those keys genuinely stores NULL there. -/
structure Product where
  id : Nat
  barcode : String
  name : Option String
  price : Option ℚ
  cost : Option ℚ
  qty : Int
  is_new : Bool
  created_at : Nat
  deriving Repr, DecidableEq

/-- A row of the transaction_line table. The primary key column id is omitted:
the database assigns it and no code path under verification ever reads it. -/
structure TransactionLine where
  transaction_id : Nat
  barcode : Option String
  name : Option String
  qty : Int
  price : ℚ
  cost : ℚ
  deriving Repr, DecidableEq

/-- A row of the transaction table. The lines relationship is kept relationally:
the lines of a transaction are the TransactionLine rows whose transaction_id
equals its id. -/
structure Transaction where
  id : Nat
  created_at : Nat
  total : ℚ
  payment_type : Option String
  synced : Bool
  deriving Repr, DecidableEq

/-- The committed database state, plus the ids the database would assign to the
next inserted transaction and product rows. -/
structure Store where
  products : List Product
  transactions : List Transaction
  lines : List TransactionLine
  nextTxId : Nat
  nextProdId : Nat
  deriving Repr, DecidableEq

/-- One element of the lines array of a client transaction. qty, price and cost
are the outcomes of int(line.get(..., 0)) and float(line.get(..., 0)): ok with
the parsed value, or error with the message of the exception the conversion
raises. An absent key parses as ok 0 through the .get default. -/
structure ClientLine where
  barcode : Option String
  name : Option String
  qty : Except String Int
  price : Except String ℚ
  cost : Except String ℚ
  deriving Repr, DecidableEq

/-- One client transaction of a sync batch. total is the outcome of
float(tx.get(..., 0)). createdAt distinguishes the three cases of the source:
none is an absent or falsy createdAt field, some none is a present field that
datetime.fromisoformat rejects, and some (some t) is a field that parses to the
clock value t. payment_type: none is an absent key, which the source defaults
to the string cash, and some v is a present key with value v. -/
structure ClientTx where
  local_id : Option String
  createdAt : Option (Option Nat)
  total : Except String ℚ
  payment_type : Option (Option String)
  lines : List ClientLine
  deriving Repr, DecidableEq

/-- One entry of the ack array in the sync response. -/
structure AckEntry where
  local_id : Option String
  status : String
  server_id : Option Nat
  error : Option String
  deriving Repr, DecidableEq

/-- Product.query.filter_by(barcode=b).first() for a string b: the first
product row whose barcode equals b. -/
def findByBarcode (b : String) (ps : List Product) : Option Product :=
  ps.find? (fun p => p.barcode == b)

/-- Product lookup by a possibly absent barcode. The barcode column is declared
NOT NULL, so filter_by(barcode=None) matches no row. -/
def lookupProduct (b : Option String) (ps : List Product) : Option Product :=
  match b with
  | none => none
  | some s => findByBarcode s ps

/-- Mutating the product object returned by .first() is, relationally,
replacing the first row whose barcode is b by the updated row. -/
def setFirstProduct (b : String) (newP : Product) : List Product → List Product
  | [] => []
  | p :: ps => if p.barcode == b then newP :: ps else p :: setFirstProduct b newP ps

/-- Python dict assignment d[k] = v on a dict kept as an insertion-ordered
association list: an existing key is overwritten in place, a new key is
appended at the end. -/
def dictInsert (k : String) (v : Product) :
    List (String × Product) → List (String × Product)
  | [] => [(k, v)]
  | e :: rest => if e.1 == k then (k, v) :: rest else e :: dictInsert k v rest

/-- The batch-level updated_products dict. -/
abbrev UpdMap := List (String × Product)

/-- Whether a modelled conversion succeeded. -/
def exIsOk {α : Type} : Except String α → Bool
  | Except.ok _ => true
  | Except.error _ => false

/-- The value of a successful conversion, with a default for the error case
that success proofs never reach. -/
def exValD {α : Type} [Inhabited α] : Except String α → α
  | Except.ok v => v
  | Except.error _ => default

/-- Whether building the TransactionLine for this client line raises, that is,
whether any of its three numeric conversions fails. -/
def lineRaises (l : ClientLine) : Bool :=
  !exIsOk l.qty || !exIsOk l.price || !exIsOk l.cost

/-- Whether processing this client transaction raises anywhere inside the try
block: either the total conversion fails, or some line conversion fails. These
are the only raise sites, and they depend only on the request, not on the
store. -/
def txRaises (tx : ClientTx) : Bool :=
  !exIsOk tx.total || tx.lines.any lineRaises

/-- The created_at resolution of the source: an absent or falsy createdAt and a
createdAt that fromisoformat rejects both become the current server time. -/
def resolveCreatedAt (now : Nat) : Option (Option Nat) → Nat
  | none => now
  | some none => now
  | some (some t) => t

/-- tx.get with default cash for the payment_type key. -/
def resolvePayment : Option (Option String) → Option String
  | none => some "cash"
  | some v => v

/-- The Transaction row built inside the try block, with the id the flush
assigns. -/
def mkTransaction (now : Nat) (st : Store) (tx : ClientTx) : Transaction :=
  { id := st.nextTxId
    created_at := resolveCreatedAt now tx.createdAt
    total := exValD tx.total
    payment_type := resolvePayment tx.payment_type
    synced := true }

/-- The TransactionLine row built for a client line whose conversions all
succeed, owned by the transaction with id txId. -/
def parsedLine (txId : Nat) (l : ClientLine) : TransactionLine :=
  { transaction_id := txId
    barcode := l.barcode
    name := l.name
    qty := exValD l.qty
    price := exValD l.price
    cost := exValD l.cost }

/-- The per-line loop of the sync endpoint, running on the uncommitted draft
state st. Each line first builds its TransactionLine row, whose int and float
conversions may raise; a raise returns the exception and abandons the draft,
but the updated_products dict accumulated so far is returned either way,
because in the source that dict is a plain Python value outside the database
session and a rollback does not undo assignments into it. A line whose barcode
matches a product decrements that product with a floor at zero and records the
post-decrement snapshot in the dict; a line whose barcode matches nothing skips
the stock adjustment silently. -/
def processLines (txId : Nat) : Store → UpdMap → List ClientLine →
    UpdMap × Except String Store
  | st, upd, [] => (upd, Except.ok st)
  | st, upd, line :: rest =>
    match line.qty with
    | Except.error e => (upd, Except.error e)
    | Except.ok q =>
      match line.price with
      | Except.error e => (upd, Except.error e)
      | Except.ok pr =>
        match line.cost with
        | Except.error e => (upd, Except.error e)
        | Except.ok c =>
          let l : TransactionLine :=
            { transaction_id := txId, barcode := line.barcode, name := line.name,
              qty := q, price := pr, cost := c }
          let st1 : Store := { st with lines := st.lines ++ [l] }
          match lookupProduct line.barcode st1.products with
          | none => processLines txId st1 upd rest
          | some prod =>
            let newQty : Int := max 0 (prod.qty - q)
            let prod1 : Product := { prod with qty := newQty }
            let st2 : Store :=
              { st1 with products := setFirstProduct prod.barcode prod1 st1.products }
            processLines txId st2 (dictInsert prod.barcode prod1 upd) rest

/-- The uncommitted draft after the session add and flush of the Transaction
row: the row is appended with the id the flush assigns, and the id counter
moves past it. -/
def draftStore (now : Nat) (st : Store) (tx : ClientTx) : Store :=
  { st with
    transactions := st.transactions ++ [mkTransaction now st tx],
    nextTxId := st.nextTxId + 1 }

/-- The ack entry of a committed transaction, carrying the assigned server
id. -/
def okAck (tx : ClientTx) (sid : Nat) : AckEntry :=
  { local_id := tx.local_id, status := "ok", server_id := some sid, error := none }

/-- The ack entry of a failed transaction, carrying str(e) of the caught
exception. -/
def errAck (tx : ClientTx) (e : String) : AckEntry :=
  { local_id := tx.local_id, status := "error", server_id := none, error := some e }

/-- One iteration of the batch loop of the sync endpoint. On success the draft
becomes the committed state and an ok ack entry carries the assigned server id,
which is the id of the flushed Transaction row, st.nextTxId; on any raise the
committed state is kept unchanged (the rollback) while the updated_products
dict keeps whatever the failed processing wrote into it, and an error ack entry
carries the exception message. -/
def processTx (now : Nat) (st : Store) (upd : UpdMap) (tx : ClientTx) :
    Store × UpdMap × AckEntry :=
  match tx.total with
  | Except.error e => (st, upd, errAck tx e)
  | Except.ok _ =>
    match processLines st.nextTxId (draftStore now st tx) upd tx.lines with
    | (upd1, Except.ok draft1) => (draft1, upd1, okAck tx st.nextTxId)
    | (upd1, Except.error e) => (st, upd1, errAck tx e)

/-- The batch loop: transactions processed in input order, one ack entry per
input, the store and the updated_products dict threaded through. -/
def syncLoop (now : Nat) : Store → UpdMap → List ClientTx →
    Store × UpdMap × List AckEntry
  | st, upd, [] => (st, upd, [])
  | st, upd, tx :: rest =>
    match processTx now st upd tx with
    | (st1, upd1, a) =>
      match syncLoop now st1 upd1 rest with
      | (st2, upd2, acks) => (st2, upd2, a :: acks)

/-- The sync response: the committed store after the batch, the ack array, and
list(updated_products.values()). -/
structure SyncResult where
  store : Store
  ack : List AckEntry
  updated_products : List Product
  deriving Repr, DecidableEq

/-- The sync endpoint on a well-typed batch. -/
def sync_transactions (now : Nat) (st : Store) (txs : List ClientTx) : SyncResult :=
  match syncLoop now st [] txs with
  | (st1, upd, acks) =>
    { store := st1, ack := acks, updated_products := upd.map (fun e => e.2) }

/-- The JSON body of the product upsert endpoint, field by field. A key absent
from the request is none. name is stored verbatim; price, cost and qty carry
the outcome of float(data.get(k) or 0) respectively int(data.get(k) or 0),
which raises on an unparsable value; is_new goes through bool(), which never
raises. barcode is the stripped barcode string, possibly empty. -/
structure ProductUpdateReq where
  barcode : String
  name : Option (Option String)
  price : Option (Except String ℚ)
  cost : Option (Except String ℚ)
  qty : Option (Except String Int)
  is_new : Option Bool
  deriving Repr, DecidableEq

/-- The name assignment of the upsert endpoint. -/
def applyName (f : Option (Option String)) (p : Product) : Product :=
  match f with
  | none => p
  | some n => { p with name := n }

/-- The price assignment of the upsert endpoint. -/
def applyPrice (f : Option (Except String ℚ)) (p : Product) : Except String Product :=
  match f with
  | none => Except.ok p
  | some (Except.error e) => Except.error e
  | some (Except.ok v) => Except.ok { p with price := some v }

/-- The cost assignment of the upsert endpoint. -/
def applyCost (f : Option (Except String ℚ)) (p : Product) : Except String Product :=
  match f with
  | none => Except.ok p
  | some (Except.error e) => Except.error e
  | some (Except.ok v) => Except.ok { p with cost := some v }

/-- The qty assignment of the upsert endpoint: the parsed integer is stored
with no range check of any kind. -/
def applyQty (f : Option (Except String Int)) (p : Product) : Except String Product :=
  match f with
  | none => Except.ok p
  | some (Except.error e) => Except.error e
  | some (Except.ok v) => Except.ok { p with qty := v }

/-- The is_new assignment of the upsert endpoint. -/
def applyIsNew (f : Option Bool) (p : Product) : Product :=
  match f with
  | none => p
  | some b => { p with is_new := b }

/-- The field assignments of the upsert endpoint in source order: name, price,
cost, qty, is_new. The first conversion that raises aborts the request before
the commit, so an error leaves the store unchanged. -/
def applyFields (req : ProductUpdateReq) (p0 : Product) : Except String Product :=
  match applyPrice req.price (applyName req.name p0) with
  | Except.error e => Except.error e
  | Except.ok p2 =>
    match applyCost req.cost p2 with
    | Except.error e => Except.error e
    | Except.ok p3 =>
      match applyQty req.qty p3 with
      | Except.error e => Except.error e
      | Except.ok p4 => Except.ok (applyIsNew req.is_new p4)

/-- A freshly constructed Product(barcode=b) with its column defaults: qty 0,
is_new true, everything else NULL, created_at the current time. -/
def freshProduct (now : Nat) (st : Store) (barcode : String) : Product :=
  { id := st.nextProdId, barcode := barcode, name := none, price := none,
    cost := none, qty := 0, is_new := true, created_at := now }

/-- The product upsert endpoint: reject an empty barcode, update the existing
row for that barcode if there is one, otherwise insert a fresh row; a failed
field conversion aborts with the store unchanged. -/
def create_or_update_product (now : Nat) (req : ProductUpdateReq) (st : Store) :
    Except String Store :=
  if req.barcode = "" then Except.error "barcode required"
  else
    match findByBarcode req.barcode st.products with
    | some prod =>
      (applyFields req prod).map fun prod1 =>
        { st with products := setFirstProduct req.barcode prod1 st.products }
    | none =>
      (applyFields req (freshProduct now st req.barcode)).map fun prod1 =>
        { st with products := st.products ++ [prod1], nextProdId := st.nextProdId + 1 }

/-! ### Store invariants used by the theorems -/

/-- Every product in the store has a non-negative stock count. -/
def nonnegStore (st : Store) : Prop := ∀ p ∈ st.products, 0 ≤ p.qty

/-- Every stored transaction line points at a transaction id below the next id
the database will assign. Holds of any state reachable from an empty store. -/
def linesIdBound (st : Store) : Prop := ∀ l ∈ st.lines, l.transaction_id < st.nextTxId

/-- Every entry of the updated_products dict is the current committed row for
its barcode. -/
def updInv (st : Store) (upd : UpdMap) : Prop :=
  ∀ e ∈ upd, findByBarcode e.1 st.products = some e.2

/-! ### Lemmas on the catalog primitives -/

theorem findByBarcode_barcode {b : String} {ps : List Product} {p : Product}
    (h : findByBarcode b ps = some p) : p.barcode = b := by
  have := List.find?_some h
  simpa using this

theorem setFirstProduct_barcodes {b : String} {newP : Product} (hb : newP.barcode = b) :
    ∀ ps : List Product,
      (setFirstProduct b newP ps).map (fun p => p.barcode) = ps.map (fun p => p.barcode)
  | [] => rfl
  | p :: ps => by
    by_cases h : p.barcode = b
    · simp [setFirstProduct, h, hb]
    · simp [setFirstProduct, h, setFirstProduct_barcodes hb ps]

theorem mem_setFirstProduct {b : String} {newP q : Product} :
    ∀ {ps : List Product}, q ∈ setFirstProduct b newP ps → q = newP ∨ q ∈ ps := by
  intro ps
  induction ps with
  | nil => intro h; simp [setFirstProduct] at h
  | cons p ps ih =>
    intro h
    by_cases hp : p.barcode = b
    · simp [setFirstProduct, hp] at h
      rcases h with h | h
      · exact Or.inl h
      · exact Or.inr (List.mem_cons_of_mem _ h)
    · simp [setFirstProduct, hp] at h
      rcases h with h | h
      · exact Or.inr (by simp [h])
      · rcases ih h with h1 | h1
        · exact Or.inl h1
        · exact Or.inr (List.mem_cons_of_mem _ h1)

theorem findByBarcode_setFirstProduct_self {b : String} {newP : Product}
    (hb : newP.barcode = b) :
    ∀ {ps : List Product} {prod : Product}, findByBarcode b ps = some prod →
      findByBarcode b (setFirstProduct b newP ps) = some newP := by
  intro ps
  induction ps with
  | nil => intro prod h; simp [findByBarcode] at h
  | cons p ps ih =>
    intro prod h
    by_cases hp : p.barcode = b
    · simp [setFirstProduct, hp, findByBarcode, hb]
    · simp [findByBarcode, List.find?_cons, hp] at h
      simp [setFirstProduct, hp, findByBarcode, List.find?_cons]
      exact ih h

theorem findByBarcode_setFirstProduct_other {k b : String} {newP : Product}
    (hb : newP.barcode = b) (hk : k ≠ b) :
    ∀ ps : List Product,
      findByBarcode k (setFirstProduct b newP ps) = findByBarcode k ps
  | [] => rfl
  | p :: ps => by
    by_cases hp : p.barcode = b
    · have hpk : ((fun p : Product => p.barcode == k) p) = false := by
        simp [hp]; exact fun h => hk h.symm
      have hnk : ((fun p : Product => p.barcode == k) newP) = false := by
        simp [hb]; exact fun h => hk h.symm
      unfold setFirstProduct findByBarcode
      rw [if_pos (by simp [hp]), List.find?_cons_of_neg _ (by simp_all),
        List.find?_cons_of_neg _ (by simp_all)]
    · by_cases hpk : p.barcode = k
      · unfold setFirstProduct findByBarcode
        rw [if_neg (by simp [hp]), List.find?_cons_of_pos _ (by simp [hpk]),
          List.find?_cons_of_pos _ (by simp [hpk])]
      · unfold setFirstProduct findByBarcode
        rw [if_neg (by simp [hp]), List.find?_cons_of_neg _ (by simp [hpk]),
          List.find?_cons_of_neg _ (by simp [hpk])]
        exact findByBarcode_setFirstProduct_other hb hk ps

theorem findByBarcode_eq_none {b : String} {ps : List Product} :
    findByBarcode b ps = none ↔ ∀ p ∈ ps, p.barcode ≠ b := by
  simp [findByBarcode, List.find?_eq_none]

theorem findByBarcode_none_of_barcodes_eq {b : String} {ps ps' : List Product}
    (hmap : ps'.map (fun p => p.barcode) = ps.map (fun p => p.barcode))
    (h : findByBarcode b ps = none) : findByBarcode b ps' = none := by
  rw [findByBarcode_eq_none] at h ⊢
  intro p hp
  have : p.barcode ∈ ps'.map (fun p => p.barcode) := List.mem_map_of_mem _ hp
  rw [hmap] at this
  rcases List.mem_map.mp this with ⟨q, hq, hqb⟩
  rw [← hqb]
  exact h q hq

/-! ### Lemmas on the updated_products dict -/

theorem dictInsert_keys_mem {k a : String} {v : Product} :
    ∀ {l : UpdMap}, a ∈ (dictInsert k v l).map (fun e => e.1) →
      a = k ∨ a ∈ l.map (fun e => e.1) := by
  intro l
  induction l with
  | nil => intro h; simp [dictInsert] at h; exact Or.inl h
  | cons x xs ih =>
    intro h
    by_cases hx : x.1 = k
    · simp [dictInsert, hx] at h
      rcases h with h | h
      · exact Or.inl h
      · exact Or.inr (by simp [h])
    · simp [dictInsert, hx] at h
      rcases h with h | h
      · exact Or.inr (by simp [h])
      · rcases ih (by simpa using h) with h1 | h1
        · exact Or.inl h1
        · exact Or.inr (by simp; right; simpa using h1)

theorem dictInsert_keys_nodup {k : String} {v : Product} :
    ∀ {l : UpdMap}, (l.map (fun e => e.1)).Nodup →
      ((dictInsert k v l).map (fun e => e.1)).Nodup := by
  intro l
  induction l with
  | nil => intro _; simp [dictInsert]
  | cons x xs ih =>
    intro hnd
    rw [List.map_cons, List.nodup_cons] at hnd
    obtain ⟨hx, hxs⟩ := hnd
    by_cases hk : x.1 = k
    · have : dictInsert k v (x :: xs) = (k, v) :: xs := by simp [dictInsert, hk]
      rw [this, List.map_cons, List.nodup_cons]
      exact ⟨by rw [← hk]; exact hx, hxs⟩
    · have : dictInsert k v (x :: xs) = x :: dictInsert k v xs := by simp [dictInsert, hk]
      rw [this, List.map_cons, List.nodup_cons]
      refine ⟨?_, ih hxs⟩
      intro hmem
      rcases dictInsert_keys_mem hmem with h1 | h1
      · exact hk h1
      · exact hx h1

theorem mem_dictInsert_nodup {k : String} {v : Product} {e : String × Product} :
    ∀ {l : UpdMap}, (l.map (fun x => x.1)).Nodup →
      e ∈ dictInsert k v l → e = (k, v) ∨ (e ∈ l ∧ e.1 ≠ k) := by
  intro l
  induction l with
  | nil => intro _ h; simp [dictInsert] at h; exact Or.inl h
  | cons x xs ih =>
    intro hnd h
    rw [List.map_cons, List.nodup_cons] at hnd
    obtain ⟨hx, hxs⟩ := hnd
    by_cases hk : x.1 = k
    · have heq : dictInsert k v (x :: xs) = (k, v) :: xs := by simp [dictInsert, hk]
      rw [heq] at h
      rcases List.mem_cons.mp h with h | h
      · exact Or.inl h
      · refine Or.inr ⟨List.mem_cons_of_mem _ h, ?_⟩
        intro hek
        apply hx
        rw [hk, ← hek]
        exact List.mem_map_of_mem _ h
    · have heq : dictInsert k v (x :: xs) = x :: dictInsert k v xs := by
        simp [dictInsert, hk]
      rw [heq] at h
      rcases List.mem_cons.mp h with h | h
      · refine Or.inr ⟨by simp [h], by rw [h]; exact hk⟩
      · rcases ih hxs h with h1 | h1
        · exact Or.inl h1
        · exact Or.inr ⟨List.mem_cons_of_mem _ h1.1, h1.2⟩

theorem dictInsert_key_ne {k b : String} {v : Product}
    (hk : k ≠ b) :
    ∀ {l : UpdMap}, (∀ e ∈ l, e.1 ≠ b) → ∀ e ∈ dictInsert k v l, e.1 ≠ b := by
  intro l
  induction l with
  | nil => intro _ e he; simp [dictInsert] at he; simp [he, hk]
  | cons x xs ih =>
    intro hall e he
    by_cases hx : x.1 = k
    · simp [dictInsert, hx] at he
      rcases he with he | he
      · simp [he, hk]
      · exact hall e (List.mem_cons_of_mem _ he)
    · simp [dictInsert, hx] at he
      rcases he with he | he
      · rw [he]; exact hall x (by simp)
      · exact ih (fun e1 he1 => hall e1 (List.mem_cons_of_mem _ he1)) e he

theorem mem_dictInsert_weak {k : String} {v : Product} {e : String × Product} :
    ∀ {l : UpdMap}, e ∈ dictInsert k v l → e = (k, v) ∨ e ∈ l := by
  intro l
  induction l with
  | nil => intro h; simp [dictInsert] at h; exact Or.inl h
  | cons x xs ih =>
    intro h
    by_cases hk : x.1 = k
    · have heq : dictInsert k v (x :: xs) = (k, v) :: xs := by simp [dictInsert, hk]
      rw [heq] at h
      rcases List.mem_cons.mp h with h | h
      · exact Or.inl h
      · exact Or.inr (List.mem_cons_of_mem _ h)
    · have heq : dictInsert k v (x :: xs) = x :: dictInsert k v xs := by
        simp [dictInsert, hk]
      rw [heq] at h
      rcases List.mem_cons.mp h with h | h
      · exact Or.inr (by simp [h])
      · rcases ih h with h1 | h1
        · exact Or.inl h1
        · exact Or.inr (List.mem_cons_of_mem _ h1)

theorem lookupProduct_some {b : Option String} {ps : List Product} {p : Product}
    (h : lookupProduct b ps = some p) :
    ∃ s, b = some s ∧ findByBarcode s ps = some p := by
  cases b with
  | none => simp [lookupProduct] at h
  | some s => exact ⟨s, rfl, by simpa [lookupProduct] using h⟩

/-! ### Lemmas on the per-line loop -/

theorem processLines_ok_shape {txId : Nat} :
    ∀ {ls : List ClientLine} {st : Store} {upd upd' : UpdMap} {st' : Store},
      processLines txId st upd ls = (upd', Except.ok st') →
      st'.transactions = st.transactions ∧
      st'.nextTxId = st.nextTxId ∧
      st'.nextProdId = st.nextProdId ∧
      st'.lines = st.lines ++ ls.map (parsedLine txId) ∧
      st'.products.map (fun p => p.barcode) = st.products.map (fun p => p.barcode) := by
  intro ls
  induction ls with
  | nil =>
    intro st upd upd' st' h
    simp [processLines] at h
    obtain ⟨h1, h2⟩ := h
    subst h2
    simp
  | cons line rest ih =>
    intro st upd upd' st' h
    rw [processLines] at h
    rcases hq : line.qty with e | q
    all_goals rw [hq] at h
    · simp at h
    rcases hp : line.price with e | pr
    all_goals rw [hp] at h
    · simp at h
    rcases hc : line.cost with e | c
    all_goals rw [hc] at h
    · simp at h
    dsimp only at h
    rcases hl : lookupProduct line.barcode st.products with _ | prod
    all_goals rw [hl] at h
    all_goals dsimp only at h
    · obtain ⟨h1, h2, h3, h4, h5⟩ := ih h
      simp only at h1 h2 h3 h4 h5
      refine ⟨h1, h2, h3, ?_, h5⟩
      rw [h4]
      simp [parsedLine, exValD, hq, hp, hc]
    · obtain ⟨h1, h2, h3, h4, h5⟩ := ih h
      simp only at h1 h2 h3 h4 h5
      refine ⟨h1, h2, h3, ?_, ?_⟩
      · rw [h4]
        simp [parsedLine, exValD, hq, hp, hc]
      · rw [h5]
        apply setFirstProduct_barcodes
        rfl

theorem exIsOk_iff {α : Type} {x : Except String α} :
    exIsOk x = true ↔ ∃ v, x = Except.ok v := by
  cases x <;> simp [exIsOk]

theorem exIsOk_false_iff {α : Type} {x : Except String α} :
    exIsOk x = false ↔ ∃ e, x = Except.error e := by
  cases x <;> simp [exIsOk]

theorem processLines_snd_indep {txId : Nat} :
    ∀ {ls : List ClientLine} {st : Store} {upd upd2 : UpdMap},
      (processLines txId st upd ls).2 = (processLines txId st upd2 ls).2 := by
  intro ls
  induction ls with
  | nil => intro st upd upd2; rfl
  | cons line rest ih =>
    intro st upd upd2
    rw [processLines, processLines]
    rcases hq : line.qty with e | q
    · rfl
    rcases hp : line.price with e | pr
    · rfl
    rcases hc : line.cost with e | c
    · rfl
    dsimp only
    rcases hl : lookupProduct line.barcode st.products with _ | prod
    · exact ih
    · exact ih

theorem processLines_ok_of_all {txId : Nat} :
    ∀ {ls : List ClientLine} {st : Store} {upd : UpdMap},
      ls.all (fun l => !lineRaises l) = true →
      ∃ upd' st', processLines txId st upd ls = (upd', Except.ok st') := by
  intro ls
  induction ls with
  | nil => intro st upd _; exact ⟨upd, st, rfl⟩
  | cons line rest ih =>
    intro st upd hall
    rw [List.all_cons] at hall
    obtain ⟨hline, hrest⟩ := Bool.and_eq_true_iff.mp hall
    have hline1 : lineRaises line = false := by
      cases h : lineRaises line
      · rfl
      · rw [h] at hline; simp at hline
    rw [lineRaises] at hline1
    simp only [Bool.or_eq_false_iff, Bool.not_eq_false'] at hline1
    obtain ⟨⟨hq1, hp1⟩, hc1⟩ := hline1
    obtain ⟨q, hq⟩ := exIsOk_iff.mp hq1
    obtain ⟨pr, hp⟩ := exIsOk_iff.mp hp1
    obtain ⟨c, hc⟩ := exIsOk_iff.mp hc1
    rw [processLines, hq, hp, hc]
    dsimp only
    rcases hl : lookupProduct line.barcode st.products with _ | prod
    all_goals dsimp only
    · exact ih hrest
    · exact ih hrest

theorem processLines_error_of_any {txId : Nat} :
    ∀ {ls : List ClientLine} {st : Store} {upd : UpdMap},
      ls.any lineRaises = true →
      ∃ upd' e, processLines txId st upd ls = (upd', Except.error e) := by
  intro ls
  induction ls with
  | nil => intro st upd h; simp at h
  | cons line rest ih =>
    intro st upd hany
    rcases hq : line.qty with e | q
    · exact ⟨upd, e, by rw [processLines, hq]⟩
    rcases hp : line.price with e | pr
    · exact ⟨upd, e, by rw [processLines, hq, hp]⟩
    rcases hc : line.cost with e | c
    · exact ⟨upd, e, by rw [processLines, hq, hp, hc]⟩
    have hline : lineRaises line = false := by
      rw [lineRaises, hq, hp, hc]
      rfl
    rw [List.any_cons, hline] at hany
    simp only [Bool.false_or] at hany
    rw [processLines, hq, hp, hc]
    dsimp only
    rcases hl : lookupProduct line.barcode st.products with _ | prod
    all_goals dsimp only
    · exact ih hany
    · exact ih hany

theorem processLines_nonneg {txId : Nat} :
    ∀ {ls : List ClientLine} {st : Store} {upd upd' : UpdMap} {st' : Store},
      processLines txId st upd ls = (upd', Except.ok st') →
      (∀ p ∈ st.products, 0 ≤ p.qty) → ∀ p ∈ st'.products, 0 ≤ p.qty := by
  intro ls
  induction ls with
  | nil =>
    intro st upd upd' st' h hn
    simp [processLines] at h
    obtain ⟨h1, h2⟩ := h
    subst h2
    exact hn
  | cons line rest ih =>
    intro st upd upd' st' h hn
    rw [processLines] at h
    rcases hq : line.qty with e | q
    all_goals rw [hq] at h
    · simp at h
    rcases hp : line.price with e | pr
    all_goals rw [hp] at h
    · simp at h
    rcases hc : line.cost with e | c
    all_goals rw [hc] at h
    · simp at h
    dsimp only at h
    rcases hl : lookupProduct line.barcode st.products with _ | prod
    all_goals rw [hl] at h
    all_goals dsimp only at h
    · exact ih h hn
    · refine ih h ?_
      intro p hp1
      rcases mem_setFirstProduct hp1 with h1 | h1
      · rw [h1]
        exact le_max_left 0 _
      · exact hn p h1

theorem processLines_keys_nodup {txId : Nat} :
    ∀ {ls : List ClientLine} {st : Store} {upd upd' : UpdMap} {r : Except String Store},
      processLines txId st upd ls = (upd', r) →
      (upd.map (fun e => e.1)).Nodup → (upd'.map (fun e => e.1)).Nodup := by
  intro ls
  induction ls with
  | nil =>
    intro st upd upd' r h hn
    simp [processLines] at h
    rw [← h.1]
    exact hn
  | cons line rest ih =>
    intro st upd upd' r h hn
    rw [processLines] at h
    rcases hq : line.qty with e | q
    all_goals rw [hq] at h
    · simp at h; rw [← h.1]; exact hn
    rcases hp : line.price with e | pr
    all_goals rw [hp] at h
    · simp at h; rw [← h.1]; exact hn
    rcases hc : line.cost with e | c
    all_goals rw [hc] at h
    · simp at h; rw [← h.1]; exact hn
    dsimp only at h
    rcases hl : lookupProduct line.barcode st.products with _ | prod
    all_goals rw [hl] at h
    all_goals dsimp only at h
    · exact ih h hn
    · exact ih h (dictInsert_keys_nodup hn)

theorem processLines_updBarcode {txId : Nat} :
    ∀ {ls : List ClientLine} {st : Store} {upd upd' : UpdMap} {r : Except String Store},
      processLines txId st upd ls = (upd', r) →
      (∀ e ∈ upd, e.2.barcode = e.1) → ∀ e ∈ upd', e.2.barcode = e.1 := by
  intro ls
  induction ls with
  | nil =>
    intro st upd upd' r h hb
    simp [processLines] at h
    rw [← h.1]
    exact hb
  | cons line rest ih =>
    intro st upd upd' r h hb
    rw [processLines] at h
    rcases hq : line.qty with e | q
    all_goals rw [hq] at h
    · simp at h; rw [← h.1]; exact hb
    rcases hp : line.price with e | pr
    all_goals rw [hp] at h
    · simp at h; rw [← h.1]; exact hb
    rcases hc : line.cost with e | c
    all_goals rw [hc] at h
    · simp at h; rw [← h.1]; exact hb
    dsimp only at h
    rcases hl : lookupProduct line.barcode st.products with _ | prod
    all_goals rw [hl] at h
    all_goals dsimp only at h
    · exact ih h hb
    · refine ih h ?_
      intro e he
      rcases mem_dictInsert_weak he with h1 | h1
      · rw [h1]
      · exact hb e h1

theorem processLines_updInv {txId : Nat} :
    ∀ {ls : List ClientLine} {st : Store} {upd upd' : UpdMap} {st' : Store},
      processLines txId st upd ls = (upd', Except.ok st') →
      updInv st upd → (upd.map (fun e => e.1)).Nodup → updInv st' upd' := by
  intro ls
  induction ls with
  | nil =>
    intro st upd upd' st' h hinv hnd
    simp [processLines] at h
    obtain ⟨h1, h2⟩ := h
    subst h2
    rw [← h1]
    exact hinv
  | cons line rest ih =>
    intro st upd upd' st' h hinv hnd
    rw [processLines] at h
    rcases hq : line.qty with e | q
    all_goals rw [hq] at h
    · simp at h
    rcases hp : line.price with e | pr
    all_goals rw [hp] at h
    · simp at h
    rcases hc : line.cost with e | c
    all_goals rw [hc] at h
    · simp at h
    dsimp only at h
    rcases hl : lookupProduct line.barcode st.products with _ | prod
    all_goals rw [hl] at h
    all_goals dsimp only at h
    · exact ih h hinv hnd
    · obtain ⟨s, hs, hfind⟩ := lookupProduct_some hl
      have hpb : prod.barcode = s := findByBarcode_barcode hfind
      refine ih h ?_ (dictInsert_keys_nodup hnd)
      intro e he
      rcases mem_dictInsert_nodup hnd he with h1 | h1
      · rw [h1]
        dsimp only
        exact @findByBarcode_setFirstProduct_self prod.barcode
          { prod with qty := max 0 (prod.qty - q) } rfl st.products prod
          (by rw [hpb]; exact hfind)
      · have hne : e.1 ≠ prod.barcode := h1.2
        dsimp only [updInv] at hinv
        rw [@findByBarcode_setFirstProduct_other e.1 prod.barcode
          { prod with qty := max 0 (prod.qty - q) } rfl hne st.products]
        exact hinv e h1.1

theorem processLines_avoid {txId : Nat} {b : String} :
    ∀ {ls : List ClientLine} {st : Store} {upd upd' : UpdMap} {r : Except String Store},
      processLines txId st upd ls = (upd', r) →
      findByBarcode b st.products = none →
      (∀ e ∈ upd, e.1 ≠ b) →
      (∀ e ∈ upd', e.1 ≠ b) ∧
        ∀ st', r = Except.ok st' → findByBarcode b st'.products = none := by
  intro ls
  induction ls with
  | nil =>
    intro st upd upd' r h hfind hkeys
    simp [processLines] at h
    obtain ⟨h1, h2⟩ := h
    subst h1
    refine ⟨hkeys, ?_⟩
    intro st' hst
    rw [← h2] at hst
    rw [Except.ok.injEq] at hst
    rw [← hst]
    exact hfind
  | cons line rest ih =>
    intro st upd upd' r h hfind hkeys
    rw [processLines] at h
    rcases hq : line.qty with e | q
    all_goals rw [hq] at h
    · simp at h
      refine ⟨by rw [← h.1]; exact hkeys, ?_⟩
      intro st' hst
      rw [← h.2] at hst
      simp at hst
    rcases hp : line.price with e | pr
    all_goals rw [hp] at h
    · simp at h
      refine ⟨by rw [← h.1]; exact hkeys, ?_⟩
      intro st' hst
      rw [← h.2] at hst
      simp at hst
    rcases hc : line.cost with e | c
    all_goals rw [hc] at h
    · simp at h
      refine ⟨by rw [← h.1]; exact hkeys, ?_⟩
      intro st' hst
      rw [← h.2] at hst
      simp at hst
    dsimp only at h
    rcases hl : lookupProduct line.barcode st.products with _ | prod
    all_goals rw [hl] at h
    all_goals dsimp only at h
    · exact ih h hfind hkeys
    · obtain ⟨s, hs, hfind1⟩ := lookupProduct_some hl
      have hpb : prod.barcode = s := findByBarcode_barcode hfind1
      have hne : prod.barcode ≠ b := by
        intro hcontra
        rw [hpb] at hcontra
        rw [hcontra] at hfind1
        rw [hfind] at hfind1
        exact Option.noConfusion hfind1
      refine ih h ?_ (dictInsert_key_ne hne hkeys)
      apply findByBarcode_none_of_barcodes_eq ?_ hfind
      apply setFirstProduct_barcodes
      rfl

/-! ### Lemmas on one batch iteration -/

theorem processTx_total_error {now : Nat} {st : Store} {upd : UpdMap} {tx : ClientTx}
    {e : String} (h : tx.total = Except.error e) :
    processTx now st upd tx = (st, upd, errAck tx e) := by
  rw [processTx, h]

theorem txRaises_false_elim {tx : ClientTx} (h : txRaises tx = false) :
    (∃ v, tx.total = Except.ok v) ∧ (tx.lines.all fun l => !lineRaises l) = true := by
  rw [txRaises] at h
  simp only [Bool.or_eq_false_iff, Bool.not_eq_false'] at h
  refine ⟨exIsOk_iff.mp h.1, ?_⟩
  rw [List.all_eq_true]
  intro l hl
  have := (List.any_eq_false).mp h.2 l hl
  simp [this]

theorem processTx_ok {now : Nat} {st : Store} {upd : UpdMap} {tx : ClientTx}
    (h : txRaises tx = false) :
    ∃ upd1 st1, processTx now st upd tx = (st1, upd1, okAck tx st.nextTxId) ∧
      st1.transactions = st.transactions ++ [mkTransaction now st tx] ∧
      st1.lines = st.lines ++ tx.lines.map (parsedLine st.nextTxId) ∧
      st1.nextTxId = st.nextTxId + 1 ∧
      st1.nextProdId = st.nextProdId ∧
      st1.products.map (fun p => p.barcode) = st.products.map (fun p => p.barcode) := by
  obtain ⟨⟨v, htot⟩, hall⟩ := txRaises_false_elim h
  obtain ⟨upd1, st1, hpl⟩ :=
    @processLines_ok_of_all st.nextTxId tx.lines (draftStore now st tx) upd hall
  obtain ⟨h1, h2, h3, h4, h5⟩ := processLines_ok_shape hpl
  refine ⟨upd1, st1, ?_, ?_, ?_, ?_, ?_, ?_⟩
  · rw [processTx, htot]
    dsimp only
    rw [hpl]
  · rw [h1]; rfl
  · rw [h4]; rfl
  · rw [h2]; rfl
  · rw [h3]; rfl
  · rw [h5]; rfl

theorem processTx_raises {now : Nat} {st : Store} {upd : UpdMap} {tx : ClientTx}
    (h : txRaises tx = true) :
    ∃ upd1 e, processTx now st upd tx = (st, upd1, errAck tx e) := by
  rcases htot : tx.total with e | v
  · exact ⟨upd, e, processTx_total_error htot⟩
  · have hany : tx.lines.any lineRaises = true := by
      rw [txRaises, htot] at h
      simpa [exIsOk] using h
    obtain ⟨upd1, e, hpl⟩ :=
      @processLines_error_of_any st.nextTxId tx.lines (draftStore now st tx) upd hany
    refine ⟨upd1, e, ?_⟩
    rw [processTx, htot]
    dsimp only
    rw [hpl]

theorem processTx_ack_localId {now : Nat} {st : Store} {upd : UpdMap} {tx : ClientTx} :
    (processTx now st upd tx).2.2.local_id = tx.local_id := by
  cases h : txRaises tx
  · obtain ⟨upd1, st1, heq, _⟩ := @processTx_ok now st upd tx h
    rw [heq]
    rfl
  · obtain ⟨upd1, e, heq⟩ := @processTx_raises now st upd tx h
    rw [heq]
    rfl

theorem processTx_ack_shape {now : Nat} {st : Store} {upd : UpdMap} {tx : ClientTx} :
    ((processTx now st upd tx).2.2.status = "ok" ∧
      (∃ n, (processTx now st upd tx).2.2.server_id = some n) ∧
      (processTx now st upd tx).2.2.error = none) ∨
    ((processTx now st upd tx).2.2.status = "error" ∧
      (processTx now st upd tx).2.2.server_id = none ∧
      ∃ e, (processTx now st upd tx).2.2.error = some e) := by
  cases h : txRaises tx
  · obtain ⟨upd1, st1, heq, _⟩ := @processTx_ok now st upd tx h
    rw [heq]
    exact Or.inl ⟨rfl, ⟨st.nextTxId, rfl⟩, rfl⟩
  · obtain ⟨upd1, e, heq⟩ := @processTx_raises now st upd tx h
    rw [heq]
    exact Or.inr ⟨rfl, rfl, e, rfl⟩

theorem processTx_upd_indep {now : Nat} {st : Store} {upd upd2 : UpdMap} {tx : ClientTx} :
    (processTx now st upd tx).1 = (processTx now st upd2 tx).1 ∧
      (processTx now st upd tx).2.2 = (processTx now st upd2 tx).2.2 := by
  rcases htot : tx.total with e | v
  · rw [processTx, htot, processTx, htot]
    exact ⟨rfl, rfl⟩
  · rw [processTx, htot, processTx, htot]
    dsimp only
    rcases h1 : processLines st.nextTxId (draftStore now st tx) upd tx.lines with ⟨u1, r1⟩
    rcases h2 : processLines st.nextTxId (draftStore now st tx) upd2 tx.lines with ⟨u2, r2⟩
    have hr : r1 = r2 := by
      have := @processLines_snd_indep st.nextTxId tx.lines (draftStore now st tx) upd upd2
      rw [h1, h2] at this
      exact this
    subst hr
    cases r1
    · exact ⟨rfl, rfl⟩
    · exact ⟨rfl, rfl⟩

theorem processTx_nonneg {now : Nat} {st : Store} {upd : UpdMap} {tx : ClientTx}
    (hn : nonnegStore st) : nonnegStore (processTx now st upd tx).1 := by
  rcases htot : tx.total with e | v
  · rw [processTx, htot]
    exact hn
  · rw [processTx, htot]
    dsimp only
    rcases h1 : processLines st.nextTxId (draftStore now st tx) upd tx.lines with ⟨u1, r1⟩
    cases r1 with
    | ok d =>
      dsimp only
      exact processLines_nonneg h1 hn
    | error e =>
      dsimp only
      exact hn

theorem processTx_keys_nodup {now : Nat} {st : Store} {upd : UpdMap} {tx : ClientTx}
    (hn : (upd.map (fun e => e.1)).Nodup) :
    ((processTx now st upd tx).2.1.map (fun e => e.1)).Nodup := by
  rcases htot : tx.total with e | v
  · rw [processTx, htot]
    exact hn
  · rw [processTx, htot]
    dsimp only
    rcases h1 : processLines st.nextTxId (draftStore now st tx) upd tx.lines with ⟨u1, r1⟩
    cases r1 with
    | ok d => exact processLines_keys_nodup h1 hn
    | error e => exact processLines_keys_nodup h1 hn

theorem processTx_updBarcode {now : Nat} {st : Store} {upd : UpdMap} {tx : ClientTx}
    (hb : ∀ e ∈ upd, e.2.barcode = e.1) :
    ∀ e ∈ (processTx now st upd tx).2.1, e.2.barcode = e.1 := by
  rcases htot : tx.total with e | v
  · rw [processTx, htot]
    exact hb
  · rw [processTx, htot]
    dsimp only
    rcases h1 : processLines st.nextTxId (draftStore now st tx) upd tx.lines with ⟨u1, r1⟩
    cases r1 with
    | ok d => exact processLines_updBarcode h1 hb
    | error e => exact processLines_updBarcode h1 hb

theorem processTx_updInv {now : Nat} {st : Store} {upd : UpdMap} {tx : ClientTx}
    (h : txRaises tx = false) (hinv : updInv st upd)
    (hnd : (upd.map (fun e => e.1)).Nodup) :
    updInv (processTx now st upd tx).1 (processTx now st upd tx).2.1 := by
  obtain ⟨⟨v, htot⟩, hall⟩ := txRaises_false_elim h
  obtain ⟨upd1, st1, hpl⟩ :=
    @processLines_ok_of_all st.nextTxId tx.lines (draftStore now st tx) upd hall
  rw [processTx, htot]
  dsimp only
  rw [hpl]
  dsimp only
  exact processLines_updInv hpl hinv hnd

theorem processTx_avoid {now : Nat} {st : Store} {upd : UpdMap} {tx : ClientTx}
    {b : String} (hfind : findByBarcode b st.products = none)
    (hkeys : ∀ e ∈ upd, e.1 ≠ b) :
    findByBarcode b (processTx now st upd tx).1.products = none ∧
      ∀ e ∈ (processTx now st upd tx).2.1, e.1 ≠ b := by
  rcases htot : tx.total with e | v
  · rw [processTx, htot]
    exact ⟨hfind, hkeys⟩
  · rw [processTx, htot]
    dsimp only
    rcases h1 : processLines st.nextTxId (draftStore now st tx) upd tx.lines with ⟨u1, r1⟩
    have hav := processLines_avoid h1 hfind hkeys
    cases r1 with
    | ok d =>
      dsimp only
      exact ⟨hav.2 d rfl, hav.1⟩
    | error e =>
      dsimp only
      exact ⟨hfind, hav.1⟩

theorem processTx_idBound {now : Nat} {st : Store} {upd : UpdMap} {tx : ClientTx}
    (hb : linesIdBound st) : linesIdBound (processTx now st upd tx).1 := by
  cases h : txRaises tx
  · obtain ⟨upd1, st1, heq, ht, hl, hn, _, _⟩ :=
      @processTx_ok now st upd tx h
    rw [heq]
    intro l hmem
    rw [hl] at hmem
    rw [hn]
    rcases List.mem_append.mp hmem with h1 | h1
    · exact Nat.lt_succ_of_lt (hb l h1)
    · rcases List.mem_map.mp h1 with ⟨cl, _, hcl⟩
      rw [← hcl]
      exact Nat.lt_succ_self _
  · obtain ⟨upd1, e, heq⟩ := @processTx_raises now st upd tx h
    rw [heq]
    exact hb

theorem processTx_nextTxId_le {now : Nat} {st : Store} {upd : UpdMap} {tx : ClientTx} :
    st.nextTxId ≤ (processTx now st upd tx).1.nextTxId := by
  cases h : txRaises tx
  · obtain ⟨upd1, st1, heq, _, _, hn, _, _⟩ :=
      @processTx_ok now st upd tx h
    rw [heq]
    rw [show (st1, upd1, okAck tx st.nextTxId).1 = st1 from rfl, hn]
    exact Nat.le_succ _
  · obtain ⟨upd1, e, heq⟩ := @processTx_raises now st upd tx h
    rw [heq]

theorem filter_map_parsedLine_eq_nil {n sid : Nat} (hne : sid ≠ n)
    (ls : List ClientLine) :
    (ls.map (parsedLine n)).filter (fun l => l.transaction_id == sid) = [] := by
  rw [List.filter_eq_nil_iff]
  intro a ha
  rcases List.mem_map.mp ha with ⟨cl, _, hcl⟩
  rw [← hcl]
  simp [parsedLine]
  exact fun h => hne h.symm

theorem processTx_filter_stable {now : Nat} {st : Store} {upd : UpdMap} {tx : ClientTx}
    {sid : Nat} (hlt : sid < st.nextTxId) :
    (processTx now st upd tx).1.lines.filter (fun l => l.transaction_id == sid) =
      st.lines.filter (fun l => l.transaction_id == sid) ∧
      sid < (processTx now st upd tx).1.nextTxId := by
  cases h : txRaises tx
  · obtain ⟨upd1, st1, heq, _, hl, hn, _, _⟩ :=
      @processTx_ok now st upd tx h
    rw [heq]
    dsimp only
    rw [hl, hn, List.filter_append,
      filter_map_parsedLine_eq_nil (Nat.ne_of_lt hlt) tx.lines, List.append_nil]
    exact ⟨rfl, Nat.lt_succ_of_lt hlt⟩
  · obtain ⟨upd1, e, heq⟩ := @processTx_raises now st upd tx h
    rw [heq]
    exact ⟨rfl, hlt⟩

theorem processTx_transactions_extend {now : Nat} {st : Store} {upd : UpdMap}
    {tx : ClientTx} :
    ∃ ts, (processTx now st upd tx).1.transactions = st.transactions ++ ts := by
  cases h : txRaises tx
  · obtain ⟨upd1, st1, heq, ht, _⟩ := @processTx_ok now st upd tx h
    exact ⟨[mkTransaction now st tx], by rw [heq]; exact ht⟩
  · obtain ⟨upd1, e, heq⟩ := @processTx_raises now st upd tx h
    exact ⟨[], by rw [heq]; simp⟩

/-! ### Lemmas on the batch loop -/

theorem syncLoop_nil {now : Nat} {st : Store} {upd : UpdMap} :
    syncLoop now st upd [] = (st, upd, []) := rfl

theorem syncLoop_append {now : Nat} :
    ∀ {xs ys : List ClientTx} {st : Store} {upd : UpdMap},
      syncLoop now st upd (xs ++ ys) =
        ((syncLoop now (syncLoop now st upd xs).1 (syncLoop now st upd xs).2.1 ys).1,
          (syncLoop now (syncLoop now st upd xs).1 (syncLoop now st upd xs).2.1 ys).2.1,
          (syncLoop now st upd xs).2.2 ++
            (syncLoop now (syncLoop now st upd xs).1 (syncLoop now st upd xs).2.1 ys).2.2) := by
  intro xs
  induction xs with
  | nil => intro ys st upd; rfl
  | cons tx rest ih =>
    intro ys st upd
    rw [List.cons_append, syncLoop, syncLoop]
    rcases hp : processTx now st upd tx with ⟨st1, upd1, a⟩
    dsimp only
    rw [ih]
    rcases hr : syncLoop now st1 upd1 rest with ⟨st2, upd2, acks⟩
    dsimp only
    rw [List.cons_append]

theorem syncLoop_ack_localIds {now : Nat} :
    ∀ {txs : List ClientTx} {st : Store} {upd : UpdMap},
      (syncLoop now st upd txs).2.2.map (fun a => a.local_id) =
        txs.map (fun tx => tx.local_id) := by
  intro txs
  induction txs with
  | nil => intro st upd; rfl
  | cons tx rest ih =>
    intro st upd
    rw [syncLoop]
    rcases hp : processTx now st upd tx with ⟨st1, upd1, a⟩
    dsimp only
    rcases hr : syncLoop now st1 upd1 rest with ⟨st2, upd2, acks⟩
    dsimp only
    have hloc := @processTx_ack_localId now st upd tx
    rw [hp] at hloc
    have htail := @ih st1 upd1
    rw [hr] at htail
    rw [List.map_cons, List.map_cons]
    rw [show (st1, upd1, a).2.2 = a from rfl] at hloc
    rw [show (st2, upd2, acks).2.2 = acks from rfl] at htail
    rw [hloc, htail]

theorem syncLoop_ack_length {now : Nat} {txs : List ClientTx} {st : Store}
    {upd : UpdMap} : (syncLoop now st upd txs).2.2.length = txs.length := by
  have h := @syncLoop_ack_localIds now txs st upd
  have := congrArg List.length h
  simpa using this

theorem syncLoop_indep {now : Nat} :
    ∀ {txs : List ClientTx} {st : Store} {upd upd2 : UpdMap},
      (syncLoop now st upd txs).1 = (syncLoop now st upd2 txs).1 ∧
        (syncLoop now st upd txs).2.2 = (syncLoop now st upd2 txs).2.2 := by
  intro txs
  induction txs with
  | nil => intro st upd upd2; exact ⟨rfl, rfl⟩
  | cons tx rest ih =>
    intro st upd upd2
    rw [syncLoop, syncLoop]
    rcases hp : processTx now st upd tx with ⟨st1, upd1, a⟩
    rcases hp2 : processTx now st upd2 tx with ⟨st1', upd1', a'⟩
    have hind := @processTx_upd_indep now st upd upd2 tx
    rw [hp, hp2] at hind
    obtain ⟨hst, hack⟩ := hind
    rw [show (st1, upd1, a).1 = st1 from rfl, show (st1', upd1', a').1 = st1' from rfl]
      at hst
    rw [show (st1, upd1, a).2.2 = a from rfl, show (st1', upd1', a').2.2 = a' from rfl]
      at hack
    subst hst
    subst hack
    dsimp only
    rcases hr : syncLoop now st1 upd1 rest with ⟨st2, upd2x, acks⟩
    rcases hr2 : syncLoop now st1 upd1' rest with ⟨st2', upd2x', acks'⟩
    have hihx := @ih st1 upd1 upd1'
    rw [hr, hr2] at hihx
    obtain ⟨h1, h2⟩ := hihx
    rw [show (st2, upd2x, acks).1 = st2 from rfl,
      show (st2', upd2x', acks').1 = st2' from rfl] at h1
    rw [show (st2, upd2x, acks).2.2 = acks from rfl,
      show (st2', upd2x', acks').2.2 = acks' from rfl] at h2
    subst h1
    subst h2
    exact ⟨rfl, rfl⟩

theorem syncLoop_nonneg {now : Nat} :
    ∀ {txs : List ClientTx} {st : Store} {upd : UpdMap},
      nonnegStore st → nonnegStore (syncLoop now st upd txs).1 := by
  intro txs
  induction txs with
  | nil => intro st upd hn; exact hn
  | cons tx rest ih =>
    intro st upd hn
    rw [syncLoop]
    rcases hp : processTx now st upd tx with ⟨st1, upd1, a⟩
    dsimp only
    rcases hr : syncLoop now st1 upd1 rest with ⟨st2, upd2, acks⟩
    dsimp only
    have h1 := @processTx_nonneg now st upd tx hn
    rw [hp] at h1
    have h2 := @ih st1 upd1 h1
    rw [hr] at h2
    exact h2

theorem syncLoop_idBound {now : Nat} :
    ∀ {txs : List ClientTx} {st : Store} {upd : UpdMap},
      linesIdBound st → linesIdBound (syncLoop now st upd txs).1 := by
  intro txs
  induction txs with
  | nil => intro st upd hb; exact hb
  | cons tx rest ih =>
    intro st upd hb
    rw [syncLoop]
    rcases hp : processTx now st upd tx with ⟨st1, upd1, a⟩
    dsimp only
    rcases hr : syncLoop now st1 upd1 rest with ⟨st2, upd2, acks⟩
    dsimp only
    have h1 := @processTx_idBound now st upd tx hb
    rw [hp] at h1
    have h2 := @ih st1 upd1 h1
    rw [hr] at h2
    exact h2

theorem syncLoop_nextTxId_le {now : Nat} :
    ∀ {txs : List ClientTx} {st : Store} {upd : UpdMap},
      st.nextTxId ≤ (syncLoop now st upd txs).1.nextTxId := by
  intro txs
  induction txs with
  | nil => intro st upd; exact Nat.le_refl _
  | cons tx rest ih =>
    intro st upd
    rw [syncLoop]
    rcases hp : processTx now st upd tx with ⟨st1, upd1, a⟩
    dsimp only
    rcases hr : syncLoop now st1 upd1 rest with ⟨st2, upd2, acks⟩
    dsimp only
    have h1 := @processTx_nextTxId_le now st upd tx
    rw [hp] at h1
    have h2 := @ih st1 upd1
    rw [hr] at h2
    exact Nat.le_trans h1 h2

theorem syncLoop_filter_stable {now : Nat} {sid : Nat} :
    ∀ {txs : List ClientTx} {st : Store} {upd : UpdMap},
      sid < st.nextTxId →
      (syncLoop now st upd txs).1.lines.filter (fun l => l.transaction_id == sid) =
        st.lines.filter (fun l => l.transaction_id == sid) ∧
        sid < (syncLoop now st upd txs).1.nextTxId := by
  intro txs
  induction txs with
  | nil => intro st upd hlt; exact ⟨rfl, hlt⟩
  | cons tx rest ih =>
    intro st upd hlt
    rw [syncLoop]
    rcases hp : processTx now st upd tx with ⟨st1, upd1, a⟩
    dsimp only
    rcases hr : syncLoop now st1 upd1 rest with ⟨st2, upd2, acks⟩
    dsimp only
    have h1 := @processTx_filter_stable now st upd tx sid hlt
    rw [hp] at h1
    obtain ⟨hf1, hlt1⟩ := h1
    have h2 := @ih st1 upd1 hlt1
    rw [hr] at h2
    obtain ⟨hf2, hlt2⟩ := h2
    exact ⟨by rw [hf2]; exact hf1, hlt2⟩

theorem syncLoop_transactions_mono {now : Nat} {t : Transaction} :
    ∀ {txs : List ClientTx} {st : Store} {upd : UpdMap},
      t ∈ st.transactions → t ∈ (syncLoop now st upd txs).1.transactions := by
  intro txs
  induction txs with
  | nil => intro st upd h; exact h
  | cons tx rest ih =>
    intro st upd hmem
    rw [syncLoop]
    rcases hp : processTx now st upd tx with ⟨st1, upd1, a⟩
    dsimp only
    rcases hr : syncLoop now st1 upd1 rest with ⟨st2, upd2, acks⟩
    dsimp only
    obtain ⟨ts, hts⟩ := @processTx_transactions_extend now st upd tx
    rw [hp] at hts
    have hmem1 : t ∈ st1.transactions := by
      rw [show (st1, upd1, a).1 = st1 from rfl] at hts
      rw [hts]
      exact List.mem_append_left _ hmem
    have h2 := @ih st1 upd1 hmem1
    rw [hr] at h2
    exact h2

theorem syncLoop_ack_shape {now : Nat} :
    ∀ {txs : List ClientTx} {st : Store} {upd : UpdMap},
      ∀ a ∈ (syncLoop now st upd txs).2.2,
        (a.status = "ok" ∧ (∃ n, a.server_id = some n) ∧ a.error = none) ∨
        (a.status = "error" ∧ a.server_id = none ∧ ∃ e, a.error = some e) := by
  intro txs
  induction txs with
  | nil => intro st upd a ha; simp [syncLoop] at ha
  | cons tx rest ih =>
    intro st upd a ha
    rw [syncLoop] at ha
    rcases hp : processTx now st upd tx with ⟨st1, upd1, a1⟩
    rw [hp] at ha
    dsimp only at ha
    rcases hr : syncLoop now st1 upd1 rest with ⟨st2, upd2, acks⟩
    rw [hr] at ha
    dsimp only at ha
    rcases List.mem_cons.mp ha with h1 | h1
    · have hs := @processTx_ack_shape now st upd tx
      rw [hp] at hs
      rw [show (st1, upd1, a1).2.2 = a1 from rfl] at hs
      rw [h1]
      exact hs
    · have := @ih st1 upd1 a
      rw [hr] at this
      exact this h1

theorem syncLoop_keys_nodup {now : Nat} :
    ∀ {txs : List ClientTx} {st : Store} {upd : UpdMap},
      (upd.map (fun e => e.1)).Nodup →
      ((syncLoop now st upd txs).2.1.map (fun e => e.1)).Nodup := by
  intro txs
  induction txs with
  | nil => intro st upd hn; exact hn
  | cons tx rest ih =>
    intro st upd hn
    rw [syncLoop]
    rcases hp : processTx now st upd tx with ⟨st1, upd1, a⟩
    dsimp only
    rcases hr : syncLoop now st1 upd1 rest with ⟨st2, upd2, acks⟩
    dsimp only
    have h1 := @processTx_keys_nodup now st upd tx hn
    rw [hp] at h1
    have h2 := @ih st1 upd1 h1
    rw [hr] at h2
    exact h2

theorem syncLoop_updBarcode {now : Nat} :
    ∀ {txs : List ClientTx} {st : Store} {upd : UpdMap},
      (∀ e ∈ upd, e.2.barcode = e.1) →
      ∀ e ∈ (syncLoop now st upd txs).2.1, e.2.barcode = e.1 := by
  intro txs
  induction txs with
  | nil => intro st upd hb; exact hb
  | cons tx rest ih =>
    intro st upd hb
    rw [syncLoop]
    rcases hp : processTx now st upd tx with ⟨st1, upd1, a⟩
    dsimp only
    rcases hr : syncLoop now st1 upd1 rest with ⟨st2, upd2, acks⟩
    dsimp only
    have h1 := @processTx_updBarcode now st upd tx hb
    rw [hp] at h1
    have h2 := @ih st1 upd1 h1
    rw [hr] at h2
    exact h2

theorem syncLoop_updInv {now : Nat} :
    ∀ {txs : List ClientTx} {st : Store} {upd : UpdMap},
      (∀ tx ∈ txs, txRaises tx = false) →
      updInv st upd → (upd.map (fun e => e.1)).Nodup →
      updInv (syncLoop now st upd txs).1 (syncLoop now st upd txs).2.1 := by
  intro txs
  induction txs with
  | nil => intro st upd _ hinv _; exact hinv
  | cons tx rest ih =>
    intro st upd hall hinv hnd
    rw [syncLoop]
    rcases hp : processTx now st upd tx with ⟨st1, upd1, a⟩
    dsimp only
    rcases hr : syncLoop now st1 upd1 rest with ⟨st2, upd2, acks⟩
    dsimp only
    have htx : txRaises tx = false := hall tx (by simp)
    have h1 := @processTx_updInv now st upd tx htx hinv hnd
    rw [hp] at h1
    have h1n := @processTx_keys_nodup now st upd tx hnd
    rw [hp] at h1n
    have h2 := @ih st1 upd1 (fun t ht => hall t (List.mem_cons_of_mem _ ht)) h1 h1n
    rw [hr] at h2
    exact h2

theorem syncLoop_avoid {now : Nat} {b : String} :
    ∀ {txs : List ClientTx} {st : Store} {upd : UpdMap},
      findByBarcode b st.products = none →
      (∀ e ∈ upd, e.1 ≠ b) →
      findByBarcode b (syncLoop now st upd txs).1.products = none ∧
        ∀ e ∈ (syncLoop now st upd txs).2.1, e.1 ≠ b := by
  intro txs
  induction txs with
  | nil => intro st upd hf hk; exact ⟨hf, hk⟩
  | cons tx rest ih =>
    intro st upd hf hk
    rw [syncLoop]
    rcases hp : processTx now st upd tx with ⟨st1, upd1, a⟩
    dsimp only
    rcases hr : syncLoop now st1 upd1 rest with ⟨st2, upd2, acks⟩
    dsimp only
    have h1 := @processTx_avoid now st upd tx b hf hk
    rw [hp] at h1
    have h2 := @ih st1 upd1 h1.1 h1.2
    rw [hr] at h2
    exact h2

theorem sync_store {now : Nat} {st : Store} {txs : List ClientTx} :
    (sync_transactions now st txs).store = (syncLoop now st [] txs).1 := by
  rw [sync_transactions]

theorem sync_ack {now : Nat} {st : Store} {txs : List ClientTx} :
    (sync_transactions now st txs).ack = (syncLoop now st [] txs).2.2 := by
  rw [sync_transactions]

theorem sync_updated {now : Nat} {st : Store} {txs : List ClientTx} :
    (sync_transactions now st txs).updated_products =
      (syncLoop now st [] txs).2.1.map (fun e => e.2) := by
  rw [sync_transactions]

/-! ### Concrete fixtures for witnesses and counterexamples -/

/-- The catalog row of the concrete scenarios of the specification: barcode
111 with stock 10. -/
def demoProduct : Product :=
  { id := 1, barcode := "111", name := some "item", price := some 100,
    cost := some 60, qty := 10, is_new := false, created_at := 0 }

/-- A store holding just the demo product and an empty ledger. -/
def demoStore : Store :=
  { products := [demoProduct], transactions := [], lines := [],
    nextTxId := 1, nextProdId := 2 }

/-- A client line with all conversions succeeding. -/
def demoLine (b : String) (q : Int) : ClientLine :=
  { barcode := some b, name := some "n", qty := Except.ok q,
    price := Except.ok 5, cost := Except.ok 3 }

/-- A client transaction with all conversions succeeding. -/
def demoTx (lid : String) (ls : List ClientLine) : ClientTx :=
  { local_id := some lid, createdAt := none, total := Except.ok 20,
    payment_type := none, lines := ls }

/-- A client line whose qty conversion raises. -/
def demoBadLine : ClientLine :=
  { barcode := some "111", name := some "n",
    qty := Except.error "invalid literal for int", price := Except.ok 5,
    cost := Except.ok 3 }

/-- A client transaction whose total conversion raises. -/
def demoBadTotalTx : ClientTx :=
  { local_id := some "bad", createdAt := none,
    total := Except.error "could not convert string to float",
    payment_type := none, lines := [demoLine "111" 3] }

/-! ### The claims -/

/-- C3: for every batch, the sync reconciler returns one ack entry per input
transaction, in input order, and the entry at every position carries the
local_id of the input transaction at that position. -/
theorem sync_ack_matches_batch (now : Nat) (st : Store) (txs : List ClientTx) :
    (sync_transactions now st txs).ack.length = txs.length ∧
      (sync_transactions now st txs).ack.map (fun a => a.local_id) =
        txs.map (fun tx => tx.local_id) := by
  rw [sync_ack]
  exact ⟨syncLoop_ack_length, syncLoop_ack_localIds⟩

/-- C10: every ack entry has status ok or error; an ok entry carries a
server_id and no error field, an error entry carries an error message and no
server_id. -/
theorem sync_ack_entry_shape (now : Nat) (st : Store) (txs : List ClientTx) :
    ∀ a ∈ (sync_transactions now st txs).ack,
      (a.status = "ok" ∧ (∃ n, a.server_id = some n) ∧ a.error = none) ∨
      (a.status = "error" ∧ a.server_id = none ∧ ∃ e, a.error = some e) := by
  rw [sync_ack]
  exact syncLoop_ack_shape

/-- Witness for C10 at a concrete batch containing one committing and one
failing transaction. -/
theorem sync_ack_entry_shape_witness :
    okAck (demoTx "t1" [demoLine "111" 4]) 1 ∈
        (sync_transactions 0 demoStore
          [demoTx "t1" [demoLine "111" 4], demoBadTotalTx]).ack ∧
      (((okAck (demoTx "t1" [demoLine "111" 4]) 1).status = "ok" ∧
        (∃ n, (okAck (demoTx "t1" [demoLine "111" 4]) 1).server_id = some n) ∧
        (okAck (demoTx "t1" [demoLine "111" 4]) 1).error = none) ∨
      ((okAck (demoTx "t1" [demoLine "111" 4]) 1).status = "error" ∧
        (okAck (demoTx "t1" [demoLine "111" 4]) 1).server_id = none ∧
        ∃ e, (okAck (demoTx "t1" [demoLine "111" 4]) 1).error = some e)) :=
  ⟨by decide,
    sync_ack_entry_shape 0 demoStore
      [demoTx "t1" [demoLine "111" 4], demoBadTotalTx]
      (okAck (demoTx "t1" [demoLine "111" 4]) 1) (by decide)⟩

/-- C7: scenario B of the specification, two transactions on barcode 111 with
starting stock 10 and line quantities 4 and 8: both commit, each decrement is
floored at zero so the final stock is 0, and updated_products carries barcode
111 exactly once with qty 0. -/
theorem sync_scenarioB_floor_at_zero :
    (sync_transactions 0 demoStore
        [demoTx "t1" [demoLine "111" 4], demoTx "t2" [demoLine "111" 8]]).ack.map
        (fun a => a.status) = ["ok", "ok"] ∧
      (sync_transactions 0 demoStore
        [demoTx "t1" [demoLine "111" 4],
          demoTx "t2" [demoLine "111" 8]]).store.products.map (fun p => p.qty) = [0] ∧
      (sync_transactions 0 demoStore
        [demoTx "t1" [demoLine "111" 4],
          demoTx "t2" [demoLine "111" 8]]).updated_products.map
        (fun p => (p.barcode, p.qty)) = [("111", 0)] := by
  refine ⟨rfl, rfl, rfl⟩

/-! ### The upsert endpoint and the stock invariant -/

theorem applyName_qty {f : Option (Option String)} {p : Product} :
    (applyName f p).qty = p.qty := by
  cases f <;> rfl

theorem applyIsNew_qty {f : Option Bool} {p : Product} :
    (applyIsNew f p).qty = p.qty := by
  cases f <;> rfl

theorem applyPrice_qty {f : Option (Except String ℚ)} {p p2 : Product}
    (h : applyPrice f p = Except.ok p2) : p2.qty = p.qty := by
  rcases f with _ | f
  · rw [applyPrice] at h
    rw [Except.ok.injEq] at h
    rw [← h]
  · rcases f with e | v
    · rw [applyPrice] at h
      exact Except.noConfusion h
    · rw [applyPrice] at h
      rw [Except.ok.injEq] at h
      rw [← h]

theorem applyCost_qty {f : Option (Except String ℚ)} {p p2 : Product}
    (h : applyCost f p = Except.ok p2) : p2.qty = p.qty := by
  rcases f with _ | f
  · rw [applyCost] at h
    rw [Except.ok.injEq] at h
    rw [← h]
  · rcases f with e | v
    · rw [applyCost] at h
      exact Except.noConfusion h
    · rw [applyCost] at h
      rw [Except.ok.injEq] at h
      rw [← h]

theorem applyQty_qty {f : Option (Except String Int)} {p p3 : Product}
    (h : applyQty f p = Except.ok p3) :
    p3.qty = p.qty ∨ ∃ v, f = some (Except.ok v) ∧ p3.qty = v := by
  rcases f with _ | f
  · rw [applyQty] at h
    rw [Except.ok.injEq] at h
    rw [← h]
    exact Or.inl rfl
  · rcases f with e | v
    · rw [applyQty] at h
      exact Except.noConfusion h
    · rw [applyQty] at h
      rw [Except.ok.injEq] at h
      rw [← h]
      exact Or.inr ⟨v, rfl, rfl⟩

theorem applyFields_qty {req : ProductUpdateReq} {p0 p1 : Product}
    (h : applyFields req p0 = Except.ok p1) :
    p1.qty = p0.qty ∨ ∃ v, req.qty = some (Except.ok v) ∧ p1.qty = v := by
  rw [applyFields] at h
  rcases hpr : applyPrice req.price (applyName req.name p0) with e | p2
  all_goals rw [hpr] at h
  · exact Except.noConfusion h
  dsimp only at h
  rcases hco : applyCost req.cost p2 with e | p3
  all_goals rw [hco] at h
  · exact Except.noConfusion h
  dsimp only at h
  rcases hq : applyQty req.qty p3 with e | p4
  all_goals rw [hq] at h
  · exact Except.noConfusion h
  dsimp only at h
  rw [Except.ok.injEq] at h
  have hq0 : p2.qty = p0.qty := by
    rw [applyPrice_qty hpr, applyName_qty]
  have hq2 : p3.qty = p2.qty := applyCost_qty hco
  have hq4 : p1.qty = p4.qty := by
    rw [← h, applyIsNew_qty]
  rcases applyQty_qty hq with h1 | ⟨v, hv, hpv⟩
  · exact Or.inl (by rw [hq4, h1, hq2, hq0])
  · exact Or.inr ⟨v, hv, by rw [hq4, hpv]⟩

theorem create_or_update_nonneg {now : Nat} {req : ProductUpdateReq} {st st2 : Store}
    (hn : nonnegStore st)
    (hreq : ∀ v, req.qty = some (Except.ok v) → 0 ≤ v)
    (hup : create_or_update_product now req st = Except.ok st2) :
    nonnegStore st2 := by
  rw [create_or_update_product] at hup
  by_cases hbc : req.barcode = ""
  · rw [if_pos hbc] at hup
    exact Except.noConfusion hup
  rw [if_neg hbc] at hup
  rcases hfind : findByBarcode req.barcode st.products with _ | prod
  all_goals rw [hfind] at hup
  all_goals dsimp only at hup
  · rcases haf : applyFields req (freshProduct now st req.barcode) with e | prod1
    all_goals rw [haf] at hup
    all_goals simp only [Except.map] at hup
    · exact Except.noConfusion hup
    rw [Except.ok.injEq] at hup
    rw [← hup]
    intro p hp
    rcases List.mem_append.mp hp with h1 | h1
    · exact hn p h1
    · rw [List.mem_singleton] at h1
      subst h1
      rcases applyFields_qty haf with h2 | ⟨v, hv, hpv⟩
      · rw [h2]
        exact Int.le_refl 0
      · rw [hpv]
        exact hreq v hv
  · rcases haf : applyFields req prod with e | prod1
    all_goals rw [haf] at hup
    all_goals simp only [Except.map] at hup
    · exact Except.noConfusion hup
    rw [Except.ok.injEq] at hup
    rw [← hup]
    intro p hp
    rcases mem_setFirstProduct hp with h1 | h1
    · subst h1
      rcases applyFields_qty haf with h2 | ⟨v, hv, hpv⟩
      · rw [h2]
        exact hn prod (List.mem_of_find?_eq_some hfind)
      · rw [hpv]
        exact hreq v hv
    · exact hn p h1

/-- C1, amended: every sync reconciliation preserves the invariant qty >= 0 on
all products, because each stock adjustment floors at zero; the product upsert
endpoint stores the client supplied integer without any range check, so it
preserves the invariant only when the supplied qty is itself non-negative. -/
theorem qty_nonneg_amended (now : Nat) (st : Store) (txs : List ClientTx)
    (req : ProductUpdateReq) (st2 : Store)
    (hn : nonnegStore st)
    (hreq : ∀ v, req.qty = some (Except.ok v) → 0 ≤ v)
    (hup : create_or_update_product now req st = Except.ok st2) :
    nonnegStore (sync_transactions now st txs).store ∧ nonnegStore st2 := by
  constructor
  · rw [sync_store]
    exact syncLoop_nonneg hn
  · exact create_or_update_nonneg hn hreq hup

/-- The upsert request of the C1 counterexample: set qty of barcode 111
to -5. -/
def negQtyReq : ProductUpdateReq :=
  { barcode := "111", name := none, price := none, cost := none,
    qty := some (Except.ok (-5)), is_new := none }

/-- C1 counterexample: on a store whose only product has stock 10, the upsert
endpoint commits a product row with stock -5, so the create or update
operation does not preserve qty >= 0. -/
theorem qty_nonneg_counterexample :
    demoStore.products.map (fun p => p.qty) = [10] ∧
      (create_or_update_product 0 negQtyReq demoStore).map
        (fun s => s.products.map (fun p => p.qty)) = Except.ok [-5] ∧
      ¬ (0:Int) ≤ -5 := by
  refine ⟨rfl, rfl, by decide⟩

/-- The upsert request of the C1 witness: set qty of barcode 111 to 3. -/
def posQtyReq : ProductUpdateReq :=
  { barcode := "111", name := none, price := none, cost := none,
    qty := some (Except.ok 3), is_new := none }

/-- The store the C1 witness upsert commits. -/
def posQtyStore : Store :=
  { demoStore with
    products := [{ demoProduct with qty := 3 }] }

/-- Witness for C1 amended at a concrete store, batch and upsert request. -/
theorem qty_nonneg_amended_witness :
    nonnegStore demoStore ∧
      (∀ v, posQtyReq.qty = some (Except.ok v) → 0 ≤ v) ∧
      create_or_update_product 0 posQtyReq demoStore = Except.ok posQtyStore ∧
      (nonnegStore (sync_transactions 0 demoStore
          [demoTx "t1" [demoLine "111" 4]]).store ∧
        nonnegStore posQtyStore) :=
  ⟨(by decide : ∀ p ∈ demoStore.products, 0 ≤ p.qty),
    fun v hv => by
      simp only [posQtyReq, Option.some.injEq, Except.ok.injEq] at hv
      omega,
    by decide,
    qty_nonneg_amended 0 demoStore [demoTx "t1" [demoLine "111" 4]] posQtyReq
      posQtyStore (by decide : ∀ p ∈ demoStore.products, 0 ≤ p.qty)
      (fun v hv => by
        simp only [posQtyReq, Option.some.injEq, Except.ok.injEq] at hv
        omega)
      (by decide)⟩

/-! ### Failure isolation inside a batch -/

/-- Helper: a transaction whose total value fails to parse is acked with
status error carrying the non-empty exception message and no server_id, the
committed store after the batch is exactly the store obtained by running the
batch without that transaction (so the ledger has no entry for it), the
updated_products collection is also unchanged, and every other transaction of
the batch is processed as if the failed one were absent. -/
theorem total_parse_failure_isolated (now : Nat) (st : Store)
    (pre post : List ClientTx) (tx : ClientTx) (e : String)
    (htot : tx.total = Except.error e) (hne : e ≠ "") :
    (sync_transactions now st (pre ++ tx :: post)).store =
        (sync_transactions now st (pre ++ post)).store ∧
      (sync_transactions now st (pre ++ tx :: post)).updated_products =
        (sync_transactions now st (pre ++ post)).updated_products ∧
      (sync_transactions now st (pre ++ tx :: post)).ack =
        (sync_transactions now st (pre ++ post)).ack.take pre.length ++
          errAck tx e ::
            (sync_transactions now st (pre ++ post)).ack.drop pre.length ∧
      (errAck tx e).status = "error" ∧ (errAck tx e).error = some e ∧ e ≠ "" ∧
      (errAck tx e).server_id = none := by
  simp only [sync_store, sync_ack, sync_updated]
  have happ := @syncLoop_append now pre (tx :: post) st []
  have happ2 := @syncLoop_append now pre post st []
  rcases hL1 : syncLoop now st [] pre with ⟨s1, u1, acks1⟩
  rw [hL1] at happ happ2
  dsimp only at happ happ2
  have hlen : acks1.length = pre.length := by
    have h := @syncLoop_ack_length now pre st []
    rw [hL1] at h
    exact h
  rw [syncLoop] at happ
  rw [processTx_total_error htot] at happ
  dsimp only at happ
  rcases hP : syncLoop now s1 u1 post with ⟨s2, u2, acks2⟩
  rw [hP] at happ happ2
  dsimp only at happ happ2
  rw [happ, happ2]
  dsimp only
  refine ⟨rfl, rfl, ?_, rfl, rfl, hne, rfl⟩
  rw [← hlen, List.take_left, List.drop_left]

/-- C2: a transaction that raises anywhere during its processing leaves the
committed store exactly as if it had never been submitted: the whole batch
produces the same store as the batch without it, an error ack entry is
recorded at its position, and every other transaction, before or after it, is
processed unchanged. -/
theorem failed_tx_isolated (now : Nat) (st : Store) (pre post : List ClientTx)
    (tx : ClientTx) (hraise : txRaises tx = true) :
    (sync_transactions now st (pre ++ tx :: post)).store =
        (sync_transactions now st (pre ++ post)).store ∧
      ∃ e, (sync_transactions now st (pre ++ tx :: post)).ack =
        (sync_transactions now st (pre ++ post)).ack.take pre.length ++
          errAck tx e ::
            (sync_transactions now st (pre ++ post)).ack.drop pre.length := by
  simp only [sync_store, sync_ack]
  have happ := @syncLoop_append now pre (tx :: post) st []
  have happ2 := @syncLoop_append now pre post st []
  rcases hL1 : syncLoop now st [] pre with ⟨s1, u1, acks1⟩
  rw [hL1] at happ happ2
  dsimp only at happ happ2
  have hlen : acks1.length = pre.length := by
    have h := @syncLoop_ack_length now pre st []
    rw [hL1] at h
    exact h
  obtain ⟨u1x, e, hstep⟩ := @processTx_raises now s1 u1 tx hraise
  rw [syncLoop] at happ
  rw [hstep] at happ
  dsimp only at happ
  rcases hPx : syncLoop now s1 u1x post with ⟨s2x, u2x, acks2x⟩
  rcases hP : syncLoop now s1 u1 post with ⟨s2, u2, acks2⟩
  have hind := @syncLoop_indep now post s1 u1x u1
  rw [hPx, hP] at hind
  obtain ⟨hs, ha⟩ := hind
  rw [show (s2x, u2x, acks2x).1 = s2x from rfl, show (s2, u2, acks2).1 = s2 from rfl]
    at hs
  rw [show (s2x, u2x, acks2x).2.2 = acks2x from rfl,
    show (s2, u2, acks2).2.2 = acks2 from rfl] at ha
  subst hs
  subst ha
  rw [hPx] at happ
  rw [hP] at happ2
  dsimp only at happ happ2
  rw [happ, happ2]
  dsimp only
  refine ⟨rfl, e, ?_⟩
  rw [← hlen, List.take_left, List.drop_left]

/-- Witness for C2: a transaction whose second line has an unparsable qty,
preceded and followed by committing transactions. -/
theorem failed_tx_isolated_witness :
    txRaises (demoTx "d1" [demoLine "111" 3, demoBadLine]) = true ∧
      ((sync_transactions 0 demoStore
            ([demoTx "a" [demoLine "111" 1]] ++
              demoTx "d1" [demoLine "111" 3, demoBadLine] ::
                [demoTx "b" [demoLine "111" 2]])).store =
          (sync_transactions 0 demoStore
            ([demoTx "a" [demoLine "111" 1]] ++ [demoTx "b" [demoLine "111" 2]])).store ∧
        ∃ e, (sync_transactions 0 demoStore
            ([demoTx "a" [demoLine "111" 1]] ++
              demoTx "d1" [demoLine "111" 3, demoBadLine] ::
                [demoTx "b" [demoLine "111" 2]])).ack =
          (sync_transactions 0 demoStore
            ([demoTx "a" [demoLine "111" 1]] ++
              [demoTx "b" [demoLine "111" 2]])).ack.take
              [demoTx "a" [demoLine "111" 1]].length ++
            errAck (demoTx "d1" [demoLine "111" 3, demoBadLine]) e ::
              (sync_transactions 0 demoStore
                ([demoTx "a" [demoLine "111" 1]] ++
                  [demoTx "b" [demoLine "111" 2]])).ack.drop
                  [demoTx "a" [demoLine "111" 1]].length) :=
  ⟨by decide,
    failed_tx_isolated 0 demoStore [demoTx "a" [demoLine "111" 1]]
      [demoTx "b" [demoLine "111" 2]]
      (demoTx "d1" [demoLine "111" 3, demoBadLine]) (by decide)⟩

/-! ### The updated_products snapshots -/

/-- The client lines of a transaction that the per-line loop fully processes,
lookup and stock adjustment included: none when the total conversion raises,
otherwise every line before the first line whose own conversions raise (that
line raises while its row is built, before any lookup). -/
def processedLines (tx : ClientTx) : List ClientLine :=
  if exIsOk tx.total then tx.lines.takeWhile (fun l => !lineRaises l) else []

/-- The updated_products key a processed line contributes: the barcode of the
matched catalog product, which is the string carried by the line barcode
itself, and nothing when no product matches. -/
def lineTouch (ps : List Product) (l : ClientLine) : Option String :=
  match lookupProduct l.barcode ps with
  | some prod => some prod.barcode
  | none => none

/-- The barcodes whose stock a batch touches, judged against the catalog at
batch start. This is well defined across the batch because a sync neither
inserts nor deletes product rows, so which barcodes match a product never
changes while the batch runs. -/
def touchedBarcodes (st : Store) (txs : List ClientTx) : List String :=
  txs.flatMap (fun tx => (processedLines tx).filterMap (lineTouch st.products))

theorem touchedBarcodes_cons {st : Store} {tx : ClientTx} {rest : List ClientTx} :
    touchedBarcodes st (tx :: rest) =
      (processedLines tx).filterMap (lineTouch st.products) ++
        touchedBarcodes st rest := by
  rw [touchedBarcodes, touchedBarcodes, List.flatMap_cons]

theorem lineTouch_congr {ps ps' : List Product}
    (hmap : ps'.map (fun p => p.barcode) = ps.map (fun p => p.barcode))
    (l : ClientLine) : lineTouch ps' l = lineTouch ps l := by
  rcases hb : l.barcode with _ | s
  · simp [lineTouch, lookupProduct, hb]
  · rcases hf : findByBarcode s ps with _ | prod
    · have hf' : findByBarcode s ps' = none :=
        findByBarcode_none_of_barcodes_eq hmap hf
      simp [lineTouch, lookupProduct, hb, hf, hf']
    · rcases hf' : findByBarcode s ps' with _ | prod'
      · have hcontra := @findByBarcode_none_of_barcodes_eq s ps' ps hmap.symm hf'
        rw [hcontra] at hf
        exact Option.noConfusion hf
      · have h1 : prod.barcode = s := findByBarcode_barcode hf
        have h2 : prod'.barcode = s := findByBarcode_barcode hf'
        simp [lineTouch, lookupProduct, hb, hf, hf', h1, h2]

theorem filterMap_lineTouch_congr {ps ps' : List Product}
    (hmap : ps'.map (fun p => p.barcode) = ps.map (fun p => p.barcode))
    (ls : List ClientLine) :
    ls.filterMap (lineTouch ps') = ls.filterMap (lineTouch ps) :=
  List.filterMap_congr (fun l _ => lineTouch_congr hmap l)

theorem touchedBarcodes_congr {st st' : Store}
    (hmap : st'.products.map (fun p => p.barcode) =
      st.products.map (fun p => p.barcode)) (txs : List ClientTx) :
    touchedBarcodes st' txs = touchedBarcodes st txs := by
  rw [touchedBarcodes, touchedBarcodes]
  congr 1
  funext tx
  exact filterMap_lineTouch_congr hmap (processedLines tx)

theorem dictInsert_mem_keys_self {k : String} {v : Product} :
    ∀ {l : UpdMap}, k ∈ (dictInsert k v l).map (fun e => e.1) := by
  intro l
  induction l with
  | nil => simp [dictInsert]
  | cons x xs ih =>
    by_cases hk : x.1 = k
    · simp [dictInsert, hk]
    · have heq : dictInsert k v (x :: xs) = x :: dictInsert k v xs := by
        simp [dictInsert, hk]
      rw [heq, List.map_cons]
      exact List.mem_cons_of_mem _ ih

theorem dictInsert_mem_keys_of_mem {k b : String} {v : Product} :
    ∀ {l : UpdMap}, b ∈ l.map (fun e => e.1) →
      b ∈ (dictInsert k v l).map (fun e => e.1) := by
  intro l
  induction l with
  | nil => intro h; simp at h
  | cons x xs ih =>
    intro h
    rw [List.map_cons] at h
    by_cases hk : x.1 = k
    · have heq : dictInsert k v (x :: xs) = (k, v) :: xs := by simp [dictInsert, hk]
      rw [heq, List.map_cons]
      rcases List.mem_cons.mp h with h1 | h1
      · rw [h1, hk]
        exact List.mem_cons_self _ _
      · exact List.mem_cons_of_mem _ h1
    · have heq : dictInsert k v (x :: xs) = x :: dictInsert k v xs := by
        simp [dictInsert, hk]
      rw [heq, List.map_cons]
      rcases List.mem_cons.mp h with h1 | h1
      · rw [h1]
        exact List.mem_cons_self _ _
      · exact List.mem_cons_of_mem _ (ih h1)

theorem dictInsert_keys_iff {k b : String} {v : Product} {l : UpdMap} :
    b ∈ (dictInsert k v l).map (fun e => e.1) ↔
      b = k ∨ b ∈ l.map (fun e => e.1) := by
  constructor
  · exact dictInsert_keys_mem
  · rintro (h | h)
    · rw [h]
      exact dictInsert_mem_keys_self
    · exact dictInsert_mem_keys_of_mem h

theorem processLines_keys_iff {txId : Nat} {b : String} :
    ∀ {ls : List ClientLine} {st : Store} {upd upd' : UpdMap}
      {r : Except String Store} {ps : List Product},
      processLines txId st upd ls = (upd', r) →
      st.products.map (fun p => p.barcode) = ps.map (fun p => p.barcode) →
      (b ∈ upd'.map (fun e => e.1) ↔
        b ∈ upd.map (fun e => e.1) ∨
          b ∈ (ls.takeWhile (fun l => !lineRaises l)).filterMap (lineTouch ps)) := by
  intro ls
  induction ls with
  | nil =>
    intro st upd upd' r ps h hmap
    simp [processLines] at h
    rw [← h.1]
    simp
  | cons line rest ih =>
    intro st upd upd' r ps h hmap
    rw [processLines] at h
    rcases hq : line.qty with e | q
    all_goals rw [hq] at h
    · simp at h
      rw [← h.1]
      have hlr : lineRaises line = true := by simp [lineRaises, exIsOk, hq]
      rw [List.takeWhile_cons]
      simp [hlr]
    rcases hp : line.price with e | pr
    all_goals rw [hp] at h
    · simp at h
      rw [← h.1]
      have hlr : lineRaises line = true := by simp [lineRaises, exIsOk, hq, hp]
      rw [List.takeWhile_cons]
      simp [hlr]
    rcases hc : line.cost with e | c
    all_goals rw [hc] at h
    · simp at h
      rw [← h.1]
      have hlr : lineRaises line = true := by simp [lineRaises, exIsOk, hq, hp, hc]
      rw [List.takeWhile_cons]
      simp [hlr]
    dsimp only at h
    have hlr : lineRaises line = false := by simp [lineRaises, exIsOk, hq, hp, hc]
    rw [List.takeWhile_cons]
    rw [hlr]
    simp only [Bool.not_false, if_true]
    rcases hl : lookupProduct line.barcode st.products with _ | prod
    all_goals rw [hl] at h
    all_goals dsimp only at h
    · have htouchSt : lineTouch st.products line = none := by rw [lineTouch, hl]
      have htouch : lineTouch ps line = none := by
        rw [← lineTouch_congr hmap line]
        exact htouchSt
      rw [List.filterMap_cons, htouch]
      exact ih h hmap
    · have htouchSt : lineTouch st.products line = some prod.barcode := by
        rw [lineTouch, hl]
      have htouch : lineTouch ps line = some prod.barcode := by
        rw [← lineTouch_congr hmap line]
        exact htouchSt
      rw [List.filterMap_cons, htouch]
      have hmap2 : (setFirstProduct prod.barcode
          { prod with qty := max 0 (prod.qty - q) } st.products).map
            (fun p => p.barcode) = ps.map (fun p => p.barcode) := by
        refine Eq.trans ?_ hmap
        apply setFirstProduct_barcodes
        rfl
      have hih := ih h hmap2
      rw [hih, dictInsert_keys_iff]
      rw [List.mem_cons]
      tauto

theorem processTx_barcodes {now : Nat} {st : Store} {upd : UpdMap} {tx : ClientTx} :
    (processTx now st upd tx).1.products.map (fun p => p.barcode) =
      st.products.map (fun p => p.barcode) := by
  rcases htot : tx.total with e | v
  · rw [processTx, htot]
  · rw [processTx, htot]
    dsimp only
    rcases hres : processLines st.nextTxId (draftStore now st tx) upd tx.lines
      with ⟨u1, r1⟩
    cases r1 with
    | ok d =>
      dsimp only
      exact (processLines_ok_shape hres).2.2.2.2
    | error e =>
      dsimp only

theorem processTx_keys_iff {now : Nat} {st : Store} {upd : UpdMap} {tx : ClientTx}
    {b : String} :
    b ∈ (processTx now st upd tx).2.1.map (fun e => e.1) ↔
      b ∈ upd.map (fun e => e.1) ∨
        b ∈ (processedLines tx).filterMap (lineTouch st.products) := by
  rcases htot : tx.total with e | v
  · rw [processTx, htot]
    dsimp only
    rw [processedLines]
    have hnok : exIsOk tx.total = false := by rw [htot]; rfl
    rw [hnok]
    simp
  · rw [processTx, htot]
    dsimp only
    rcases hres : processLines st.nextTxId (draftStore now st tx) upd tx.lines
      with ⟨u1, r1⟩
    have hkeys := @processLines_keys_iff st.nextTxId b tx.lines
      (draftStore now st tx) upd u1 r1 st.products hres rfl
    rw [processedLines]
    have hok : exIsOk tx.total = true := by rw [htot]; rfl
    rw [hok]
    simp only [if_true]
    cases r1 with
    | ok d =>
      dsimp only
      exact hkeys
    | error e =>
      dsimp only
      exact hkeys

theorem syncLoop_keys_iff {now : Nat} {b : String} :
    ∀ {txs : List ClientTx} {st : Store} {upd : UpdMap},
      b ∈ (syncLoop now st upd txs).2.1.map (fun e => e.1) ↔
        b ∈ upd.map (fun e => e.1) ∨ b ∈ touchedBarcodes st txs := by
  intro txs
  induction txs with
  | nil =>
    intro st upd
    simp [syncLoop, touchedBarcodes]
  | cons tx rest ih =>
    intro st upd
    rw [syncLoop]
    rcases hp : processTx now st upd tx with ⟨st1, upd1, a⟩
    dsimp only
    rcases hr : syncLoop now st1 upd1 rest with ⟨st2, upd2, acks⟩
    dsimp only
    have hih := @ih st1 upd1
    rw [hr] at hih
    have hptx := @processTx_keys_iff now st upd tx b
    rw [hp] at hptx
    have hbar := @processTx_barcodes now st upd tx
    rw [hp] at hbar
    have htc : touchedBarcodes st1 rest = touchedBarcodes st rest :=
      touchedBarcodes_congr hbar rest
    rw [htc] at hih
    rw [hih, hptx, touchedBarcodes_cons, List.mem_append]
    tauto

/-- The batch of the C4 counterexample: one transaction that decrements barcode
111 on its first line and raises on its second. -/
def c4Batch : List ClientTx :=
  [demoTx "d1" [demoLine "111" 3, demoBadLine]]

/-- C4 counterexample: the transaction rolls back, so the committed stock of
barcode 111 stays 10, yet updated_products reports a snapshot with qty 7 taken
before the rollback: the snapshot shows state of a rolled back transaction, not
the final committed state. -/
theorem stale_snapshot_counterexample :
    (sync_transactions 0 demoStore c4Batch).ack.map (fun a => a.status) = ["error"] ∧
      (sync_transactions 0 demoStore c4Batch).store.products.map (fun p => p.qty) =
        [10] ∧
      (sync_transactions 0 demoStore c4Batch).updated_products.map
        (fun p => (p.barcode, p.qty)) = [("111", 7)] ∧
      (7 : Int) ≠ 10 := by
  refine ⟨rfl, rfl, rfl, by decide⟩

/-- C4, amended: for every batch, updated_products holds exactly one snapshot
per touched barcode — its barcodes are duplicate-free, and a barcode appears
in it precisely when some fully processed line of the batch (including lines
of transactions that later roll back) matched that catalog product. When every
transaction of the batch commits, each snapshot is exactly the final committed
row of its product. When the last touch of a barcode happened inside a rolled
back transaction, the snapshot instead exposes that discarded draft state, as
the counterexample shows. -/
theorem updated_products_amended (now : Nat) (st : Store) (txs : List ClientTx) :
    ((sync_transactions now st txs).updated_products.map (fun p => p.barcode)).Nodup ∧
      (∀ b, b ∈ (sync_transactions now st txs).updated_products.map
          (fun p => p.barcode) ↔ b ∈ touchedBarcodes st txs) ∧
      ((∀ tx ∈ txs, txRaises tx = false) →
        ∀ p ∈ (sync_transactions now st txs).updated_products,
          findByBarcode p.barcode (sync_transactions now st txs).store.products =
            some p) := by
  rw [sync_updated, sync_store]
  have hbar : ∀ e ∈ (syncLoop now st [] txs).2.1, e.2.barcode = e.1 :=
    syncLoop_updBarcode (fun e he => absurd he (List.not_mem_nil e))
  have hmapeq : ((syncLoop now st [] txs).2.1.map (fun e => e.2)).map
      (fun p => p.barcode) = ((syncLoop now st [] txs).2.1).map (fun e => e.1) := by
    rw [List.map_map]
    exact List.map_congr_left hbar
  refine ⟨?_, ?_, ?_⟩
  · rw [hmapeq]
    exact syncLoop_keys_nodup List.nodup_nil
  · intro b
    rw [hmapeq]
    have h := @syncLoop_keys_iff now b txs st []
    simpa using h
  · intro hall p hp
    rcases List.mem_map.mp hp with ⟨e, he, hep⟩
    have hinv := @syncLoop_updInv now txs st [] hall
      (fun e he => absurd he (List.not_mem_nil e)) List.nodup_nil e he
    rw [← hep, hbar e he]
    exact hinv

/-- Witness for C4 amended at an all-success singleton batch against the demo
store, discharging the all-commit hypothesis of the snapshot conjunct. -/
theorem updated_products_amended_witness :
    (∀ tx ∈ [demoTx "w1" [demoLine "111" 2]], txRaises tx = false) ∧
      ((((sync_transactions 0 demoStore
            [demoTx "w1" [demoLine "111" 2]]).updated_products.map
          (fun p => p.barcode)).Nodup ∧
        (∀ b, b ∈ (sync_transactions 0 demoStore
            [demoTx "w1" [demoLine "111" 2]]).updated_products.map
            (fun p => p.barcode) ↔
          b ∈ touchedBarcodes demoStore [demoTx "w1" [demoLine "111" 2]])) ∧
        ∀ p ∈ (sync_transactions 0 demoStore
            [demoTx "w1" [demoLine "111" 2]]).updated_products,
          findByBarcode p.barcode
            (sync_transactions 0 demoStore
              [demoTx "w1" [demoLine "111" 2]]).store.products = some p) :=
  ⟨by decide,
    ⟨(updated_products_amended 0 demoStore [demoTx "w1" [demoLine "111" 2]]).1,
      (updated_products_amended 0 demoStore [demoTx "w1" [demoLine "111" 2]]).2.1⟩,
    (updated_products_amended 0 demoStore [demoTx "w1" [demoLine "111" 2]]).2.2
      (by decide)⟩

/-! ### Committed transactions and their stored lines -/

theorem sync_mid_ok (now : Nat) (st : Store) (pre post : List ClientTx)
    (tx : ClientTx) (hbound : linesIdBound st) (htx : txRaises tx = false) :
    ∃ sid,
      (sync_transactions now st (pre ++ tx :: post)).ack[pre.length]? =
        some (okAck tx sid) ∧
      (∃ t ∈ (sync_transactions now st (pre ++ tx :: post)).store.transactions,
        t.id = sid ∧ t.total = exValD tx.total ∧ t.synced = true) ∧
      (sync_transactions now st (pre ++ tx :: post)).store.lines.filter
          (fun l => l.transaction_id == sid) = tx.lines.map (parsedLine sid) := by
  simp only [sync_store, sync_ack]
  have happ := @syncLoop_append now pre (tx :: post) st []
  rcases hL1 : syncLoop now st [] pre with ⟨s1, u1, acks1⟩
  rw [hL1] at happ
  dsimp only at happ
  have hlen : acks1.length = pre.length := by
    have h := @syncLoop_ack_length now pre st []
    rw [hL1] at h
    exact h
  have hbound1 : linesIdBound s1 := by
    have h := @syncLoop_idBound now pre st [] hbound
    rw [hL1] at h
    exact h
  obtain ⟨u2, s2, hstep, ht, hl, hn, _, _⟩ := @processTx_ok now s1 u1 tx htx
  rw [syncLoop, hstep] at happ
  dsimp only at happ
  rcases hP : syncLoop now s2 u2 post with ⟨s3, u3, acks3⟩
  rw [hP] at happ
  dsimp only at happ
  refine ⟨s1.nextTxId, ?_, ?_, ?_⟩
  · rw [happ]
    dsimp only
    rw [← hlen, List.getElem?_append_right (Nat.le_refl _), Nat.sub_self]
    simp
  · rw [happ]
    dsimp only
    have hmem : mkTransaction now s1 tx ∈ s2.transactions := by
      rw [ht]
      exact List.mem_append_right _ (List.mem_singleton_self _)
    have hmono := @syncLoop_transactions_mono now (mkTransaction now s1 tx) post s2 u2 hmem
    rw [hP] at hmono
    exact ⟨mkTransaction now s1 tx, hmono, rfl, rfl, rfl⟩
  · rw [happ]
    dsimp only
    have hlt : s1.nextTxId < s2.nextTxId := by
      rw [hn]
      exact Nat.lt_succ_self _
    have hstab := @syncLoop_filter_stable now s1.nextTxId post s2 u2 hlt
    rw [hP] at hstab
    rw [show ((s3, u3, acks3) : Store × UpdMap × List AckEntry).1 = s3 from rfl] at hstab
    rw [hstab.1, hl, List.filter_append]
    have h1 : s1.lines.filter (fun l => l.transaction_id == s1.nextTxId) = [] := by
      rw [List.filter_eq_nil_iff]
      intro a ha
      have hlt2 := hbound1 a ha
      simp only [beq_iff_eq]
      exact Nat.ne_of_lt hlt2
    have h2 : (tx.lines.map (parsedLine s1.nextTxId)).filter
        (fun l => l.transaction_id == s1.nextTxId) =
        tx.lines.map (parsedLine s1.nextTxId) := by
      rw [List.filter_eq_self]
      intro a ha
      rcases List.mem_map.mp ha with ⟨cl, _, hcl⟩
      rw [← hcl]
      simp [parsedLine]
    rw [h1, h2, List.nil_append]

/-- A client transaction whose total key is absent from the request: the
source reads tx.get(..., 0) with default 0, so the conversion is float(0),
which succeeds with 0 and is encoded as ok 0. -/
def demoAbsentTotalTx : ClientTx :=
  { local_id := some "ab", createdAt := none, total := Except.ok 0,
    payment_type := none, lines := [demoLine "111" 2] }

/-- C5 counterexample: a transaction with an absent total is silently
defaulted to 0 by tx.get with default 0: it commits with an ok ack and the
ledger records a transaction with total 0, refuting the claim that an absent
total is not silently defaulted. -/
theorem absent_total_default_counterexample :
    (sync_transactions 0 demoStore [demoAbsentTotalTx]).ack =
        [okAck demoAbsentTotalTx 1] ∧
      (sync_transactions 0 demoStore [demoAbsentTotalTx]).store.transactions.map
        (fun t => (t.total, t.synced)) = [((0 : ℚ), true)] ∧
      (okAck demoAbsentTotalTx 1).status = "ok" ∧
      (okAck demoAbsentTotalTx 1).error = none := by
  refine ⟨rfl, rfl, rfl, rfl⟩

/-- C5, amended: a transaction whose total value fails to parse is not
silently defaulted: only its own commit is aborted, it is acked with status
error, the non-empty exception message and no server_id, the ledger contains
no entry for it, and the rest of the batch is processed as if it were absent.
A transaction whose total key is absent, however, is silently defaulted to 0
by tx.get with default 0: it commits normally and the ledger records total
0. -/
theorem total_handling_amended :
    (∀ (now : Nat) (st : Store) (pre post : List ClientTx) (tx : ClientTx)
      (e : String), tx.total = Except.error e → e ≠ "" →
      (sync_transactions now st (pre ++ tx :: post)).store =
          (sync_transactions now st (pre ++ post)).store ∧
        (sync_transactions now st (pre ++ tx :: post)).updated_products =
          (sync_transactions now st (pre ++ post)).updated_products ∧
        (sync_transactions now st (pre ++ tx :: post)).ack =
          (sync_transactions now st (pre ++ post)).ack.take pre.length ++
            errAck tx e ::
              (sync_transactions now st (pre ++ post)).ack.drop pre.length ∧
        (errAck tx e).status = "error" ∧ (errAck tx e).error = some e ∧ e ≠ "" ∧
        (errAck tx e).server_id = none) ∧
    (∀ (now : Nat) (st : Store) (pre post : List ClientTx) (tx : ClientTx),
      tx.total = Except.ok 0 → txRaises tx = false → linesIdBound st →
      ∃ sid,
        (sync_transactions now st (pre ++ tx :: post)).ack[pre.length]? =
          some (okAck tx sid) ∧
        ∃ t ∈ (sync_transactions now st (pre ++ tx :: post)).store.transactions,
          t.id = sid ∧ t.total = 0 ∧ t.synced = true) := by
  constructor
  · intro now st pre post tx e htot hne
    exact total_parse_failure_isolated now st pre post tx e htot hne
  · intro now st pre post tx htot0 htx hbound
    obtain ⟨sid, h1, h2, _⟩ := sync_mid_ok now st pre post tx hbound htx
    obtain ⟨t, htm, hid, htot, hsync⟩ := h2
    refine ⟨sid, h1, t, htm, hid, ?_, hsync⟩
    rw [htot, htot0]
    rfl

/-- Witness for C5 amended: the invalid-total half at a transaction whose
total conversion raises, the absent-total half at a transaction whose total
key is absent, both against the demo store. -/
theorem total_handling_amended_witness :
    (demoBadTotalTx.total = Except.error "could not convert string to float" ∧
      ("could not convert string to float" : String) ≠ "" ∧
      ((sync_transactions 0 demoStore ([] ++ demoBadTotalTx :: [])).store =
          (sync_transactions 0 demoStore ([] ++ [])).store ∧
        (sync_transactions 0 demoStore ([] ++ demoBadTotalTx :: [])).updated_products =
          (sync_transactions 0 demoStore ([] ++ [])).updated_products ∧
        (sync_transactions 0 demoStore ([] ++ demoBadTotalTx :: [])).ack =
          (sync_transactions 0 demoStore ([] ++ [])).ack.take 0 ++
            errAck demoBadTotalTx "could not convert string to float" ::
              (sync_transactions 0 demoStore ([] ++ [])).ack.drop 0 ∧
        (errAck demoBadTotalTx "could not convert string to float").status = "error" ∧
        (errAck demoBadTotalTx "could not convert string to float").error =
          some "could not convert string to float" ∧
        ("could not convert string to float" : String) ≠ "" ∧
        (errAck demoBadTotalTx "could not convert string to float").server_id =
          none)) ∧
    (demoAbsentTotalTx.total = Except.ok 0 ∧
      txRaises demoAbsentTotalTx = false ∧
      linesIdBound demoStore ∧
      ∃ sid,
        (sync_transactions 0 demoStore ([] ++ demoAbsentTotalTx :: [])).ack[0]? =
          some (okAck demoAbsentTotalTx sid) ∧
        ∃ t ∈ (sync_transactions 0 demoStore
            ([] ++ demoAbsentTotalTx :: [])).store.transactions,
          t.id = sid ∧ t.total = 0 ∧ t.synced = true) :=
  ⟨⟨by decide, by decide,
      total_handling_amended.1 0 demoStore [] [] demoBadTotalTx
        "could not convert string to float" (by decide) (by decide)⟩,
    ⟨rfl, by decide,
      (by decide : ∀ l ∈ demoStore.lines, l.transaction_id < demoStore.nextTxId),
      total_handling_amended.2 0 demoStore [] [] demoAbsentTotalTx rfl (by decide)
        (by decide : ∀ l ∈ demoStore.lines, l.transaction_id < demoStore.nextTxId)⟩⟩

/-- C8: a transaction acknowledged ok from any position of a batch is
retrievable from the ledger: a transaction row with the acked server id exists,
and the stored lines belonging to that id are exactly the submitted lines, in
order, with the submitted barcode, name, qty, price and cost. -/
theorem committed_tx_roundtrip (now : Nat) (st : Store) (pre post : List ClientTx)
    (tx : ClientTx) (hbound : linesIdBound st) (htx : txRaises tx = false) :
    ∃ sid,
      (sync_transactions now st (pre ++ tx :: post)).ack[pre.length]? =
        some (okAck tx sid) ∧
      (∃ t ∈ (sync_transactions now st (pre ++ tx :: post)).store.transactions,
        t.id = sid) ∧
      (sync_transactions now st (pre ++ tx :: post)).store.lines.filter
          (fun l => l.transaction_id == sid) = tx.lines.map (parsedLine sid) ∧
      ((sync_transactions now st (pre ++ tx :: post)).store.lines.filter
          (fun l => l.transaction_id == sid)).length = tx.lines.length := by
  obtain ⟨sid, h1, h2, h3⟩ := sync_mid_ok now st pre post tx hbound htx
  obtain ⟨t, htm, hid, _, _⟩ := h2
  exact ⟨sid, h1, ⟨t, htm, hid⟩, h3, by rw [h3, List.length_map]⟩

/-- Witness for C8: one transaction with two lines against the demo store. -/
theorem committed_tx_roundtrip_witness :
    linesIdBound demoStore ∧
      txRaises (demoTx "w8" [demoLine "111" 2, demoLine "999" 1]) = false ∧
      ∃ sid,
        (sync_transactions 0 demoStore
            ([] ++ demoTx "w8" [demoLine "111" 2, demoLine "999" 1] :: [])).ack[0]? =
          some (okAck (demoTx "w8" [demoLine "111" 2, demoLine "999" 1]) sid) ∧
        (∃ t ∈ (sync_transactions 0 demoStore
            ([] ++ demoTx "w8" [demoLine "111" 2, demoLine "999" 1] ::
              [])).store.transactions, t.id = sid) ∧
        (sync_transactions 0 demoStore
            ([] ++ demoTx "w8" [demoLine "111" 2, demoLine "999" 1] ::
              [])).store.lines.filter (fun l => l.transaction_id == sid) =
          (demoTx "w8" [demoLine "111" 2, demoLine "999" 1]).lines.map
            (parsedLine sid) ∧
        ((sync_transactions 0 demoStore
            ([] ++ demoTx "w8" [demoLine "111" 2, demoLine "999" 1] ::
              [])).store.lines.filter (fun l => l.transaction_id == sid)).length =
          (demoTx "w8" [demoLine "111" 2, demoLine "999" 1]).lines.length :=
  ⟨(by decide : ∀ l ∈ demoStore.lines, l.transaction_id < demoStore.nextTxId),
    by decide,
    committed_tx_roundtrip 0 demoStore [] []
      (demoTx "w8" [demoLine "111" 2, demoLine "999" 1])
      (by decide : ∀ l ∈ demoStore.lines, l.transaction_id < demoStore.nextTxId)
      (by decide)⟩

/-- C6: a line whose barcode matches no catalog product causes no stock
adjustment and no error: the owning transaction still commits with the line
persisted in the ledger and an ok ack entry, the barcode stays absent from the
catalog, and no snapshot for it appears in updated_products. -/
theorem unknown_barcode_skipped (now : Nat) (st : Store) (pre post : List ClientTx)
    (tx : ClientTx) (line : ClientLine)
    (hbound : linesIdBound st) (htx : txRaises tx = false)
    (hline : line ∈ tx.lines)
    (hfind : lookupProduct line.barcode st.products = none) :
    ∃ sid,
      (sync_transactions now st (pre ++ tx :: post)).ack[pre.length]? =
        some (okAck tx sid) ∧
      parsedLine sid line ∈ (sync_transactions now st (pre ++ tx :: post)).store.lines ∧
      (∀ p ∈ (sync_transactions now st (pre ++ tx :: post)).updated_products,
        some p.barcode ≠ line.barcode) ∧
      lookupProduct line.barcode
        (sync_transactions now st (pre ++ tx :: post)).store.products = none := by
  obtain ⟨sid, h1, h2, h3⟩ := sync_mid_ok now st pre post tx hbound htx
  refine ⟨sid, h1, ?_, ?_, ?_⟩
  · have hmem : parsedLine sid line ∈
        (sync_transactions now st (pre ++ tx :: post)).store.lines.filter
          (fun l => l.transaction_id == sid) := by
      rw [h3]
      exact List.mem_map_of_mem _ hline
    exact List.mem_of_mem_filter hmem
  · rcases hbc : line.barcode with _ | b
    · intro p hp
      simp
    · have hfind1 : findByBarcode b st.products = none := by
        rw [hbc] at hfind
        simpa [lookupProduct] using hfind
      have hav := @syncLoop_avoid now b (pre ++ tx :: post) st [] hfind1
        (fun e he => absurd he (List.not_mem_nil e))
      intro p hp
      rw [sync_updated] at hp
      rcases List.mem_map.mp hp with ⟨e, he, hep⟩
      have hkey := hav.2 e he
      have hbar := @syncLoop_updBarcode now (pre ++ tx :: post) st []
        (fun e he => absurd he (List.not_mem_nil e)) e he
      intro hcontra
      rw [Option.some.injEq] at hcontra
      apply hkey
      rw [← hbar, hep]
      exact hcontra
  · rcases hbc : line.barcode with _ | b
    · rfl
    · have hfind1 : findByBarcode b st.products = none := by
        rw [hbc] at hfind
        simpa [lookupProduct] using hfind
      have hav := @syncLoop_avoid now b (pre ++ tx :: post) st [] hfind1
        (fun e he => absurd he (List.not_mem_nil e))
      rw [sync_store]
      simpa [lookupProduct] using hav.1

/-- Witness for C6: scenario A of the specification, a transaction with one
line on the known barcode 111 and one on the unknown barcode 999. -/
theorem unknown_barcode_skipped_witness :
    linesIdBound demoStore ∧
      txRaises (demoTx "wA" [demoLine "111" 3, demoLine "999" 5]) = false ∧
      demoLine "999" 5 ∈ (demoTx "wA" [demoLine "111" 3, demoLine "999" 5]).lines ∧
      lookupProduct (demoLine "999" 5).barcode demoStore.products = none ∧
      ∃ sid,
        (sync_transactions 0 demoStore
            ([] ++ demoTx "wA" [demoLine "111" 3, demoLine "999" 5] :: [])).ack[0]? =
          some (okAck (demoTx "wA" [demoLine "111" 3, demoLine "999" 5]) sid) ∧
        parsedLine sid (demoLine "999" 5) ∈
          (sync_transactions 0 demoStore
            ([] ++ demoTx "wA" [demoLine "111" 3, demoLine "999" 5] ::
              [])).store.lines ∧
        (∀ p ∈ (sync_transactions 0 demoStore
            ([] ++ demoTx "wA" [demoLine "111" 3, demoLine "999" 5] ::
              [])).updated_products,
          some p.barcode ≠ (demoLine "999" 5).barcode) ∧
        lookupProduct (demoLine "999" 5).barcode
          (sync_transactions 0 demoStore
            ([] ++ demoTx "wA" [demoLine "111" 3, demoLine "999" 5] ::
              [])).store.products = none :=
  ⟨(by decide : ∀ l ∈ demoStore.lines, l.transaction_id < demoStore.nextTxId),
    by decide, by decide, by decide,
    unknown_barcode_skipped 0 demoStore [] []
      (demoTx "wA" [demoLine "111" 3, demoLine "999" 5]) (demoLine "999" 5)
      (by decide : ∀ l ∈ demoStore.lines, l.transaction_id < demoStore.nextTxId)
      (by decide) (by decide) (by decide)⟩

end OaksMart
